import Mathlib

/-
Verification of the deCoVar allele-transformation pipeline.

The C++ sources under src/ are shallowly embedded below: concatenated
per-sample columns become a record of a flat data list plus a delimiter
list, tagged unions become inductive types, machine integers become Int
(with the integer width kept as a tag where the code dispatches on it),
C++ float/double values become rationals, and functions that throw
decovar_error return Except values.  In-place writes through computed
triangular indexes are modelled as explicit lists of (position, value)
writes applied to a function, so the loop structure of the source is
preserved.
-/

namespace Decovar

/-- The canonical VCF diploid genotype-index formula `b*(b+1)/2 + a`
(`bio::io::var::detail::vcf_gt_formula`). -/
def gForm (a b : Nat) : Nat := b * (b + 1) / 2 + a

theorem gForm_zero_zero : gForm 0 0 = 0 := rfl

theorem gForm_zero_succ (b : Nat) : gForm 0 (b + 1) = gForm b b + 1 := by
  obtain ⟨c, hc⟩ := Nat.even_mul_succ_self b
  have h2 : (b + 1) * (b + 1 + 1) = b * (b + 1) + 2 * (b + 1) := by ring
  simp only [gForm]
  omega

theorem gForm_lt_zero_succ {a b : Nat} (h : a ≤ b) : gForm a b < gForm 0 (b + 1) := by
  rw [gForm_zero_succ]
  simp only [gForm]
  omega

theorem gForm_zero_mono {b b' : Nat} (h : b ≤ b') : gForm 0 b ≤ gForm 0 b' := by
  simp only [gForm]
  have := Nat.div_le_div_right (c := 2) (Nat.mul_le_mul h (by omega : b + 1 ≤ b' + 1))
  omega

theorem gForm_lt_of_lt {a b a' b' : Nat} (h : a ≤ b) (h2 : b < b') (_h3 : a' ≤ b') :
    gForm a b < gForm a' b' := by
  have h4 : gForm a b < gForm 0 (b + 1) := gForm_lt_zero_succ h
  have h5 : gForm 0 (b + 1) ≤ gForm 0 b' := gForm_zero_mono h2
  have h6 : gForm 0 b' ≤ gForm a' b' := by simp [gForm]
  omega

theorem gForm_le_self {a b L : Nat} (h : a ≤ b) (h2 : b ≤ L) : gForm a b ≤ gForm L L := by
  rcases Nat.lt_or_ge b L with hb | hb
  · exact Nat.le_of_lt (gForm_lt_of_lt h hb (Nat.le_refl L))
  · have : b = L := Nat.le_antisymm h2 hb
    subst this
    simp [gForm, h]

theorem gForm_inj {a b a' b' : Nat} (h : a ≤ b) (h' : a' ≤ b')
    (heq : gForm a b = gForm a' b') : a = a' ∧ b = b' := by
  rcases Nat.lt_trichotomy b b' with hlt | hbe | hgt
  · exact absurd heq (Nat.ne_of_lt (gForm_lt_of_lt h hlt h'))
  · subst hbe
    simp only [gForm] at heq
    omega
  · exact absurd heq.symm (Nat.ne_of_lt (gForm_lt_of_lt h' hgt h))

/-- Apply a list of (position, value) writes to a total function; later
writes override earlier ones, mirroring sequential array stores. -/
def applyWrites (f : Nat → α) : List (Nat × α) → Nat → α
  | [] => f
  | w :: ws => applyWrites (Function.update f w.1 w.2) ws

theorem applyWrites_append (f : Nat → α) (ws1 ws2 : List (Nat × α)) :
    applyWrites f (ws1 ++ ws2) = applyWrites (applyWrites f ws1) ws2 := by
  induction ws1 generalizing f with
  | nil => rfl
  | cons w t ih => simp [applyWrites, ih]

theorem applyWrites_of_not_mem (f : Nat → α) (ws : List (Nat × α)) (p : Nat)
    (h : p ∉ ws.map Prod.fst) : applyWrites f ws p = f p := by
  induction ws generalizing f with
  | nil => rfl
  | cons w t ih =>
    simp only [List.map_cons, List.mem_cons] at h
    push_neg at h
    rw [applyWrites, ih _ h.2]
    exact Function.update_noteq h.1 _ _

theorem applyWrites_eq (f : Nat → α) (ws : List (Nat × α)) {p : Nat} {v : α}
    (hnd : (ws.map Prod.fst).Nodup) (hm : (p, v) ∈ ws) : applyWrites f ws p = v := by
  induction ws generalizing f with
  | nil => simp at hm
  | cons w t ih =>
    simp only [List.map_cons, List.nodup_cons] at hnd
    rcases List.mem_cons.mp hm with heq | hmem
    · subst heq
      rw [applyWrites, applyWrites_of_not_mem _ _ _ hnd.1, Function.update_same]
    · exact ih _ hnd.2 hmem

/-- The nested loop `for b in [0, n]: for a in [0, b]` writing
`target[gForm a b] := val a b`, as a list of writes in loop order. -/
def triWrites (n : Nat) (val : Nat → Nat → α) : List (Nat × α) :=
  (List.range (n + 1)).flatMap fun b => (List.range (b + 1)).map fun a => (gForm a b, val a b)

theorem triWrites_succ (n : Nat) (val : Nat → Nat → α) :
    triWrites (n + 1) val
      = triWrites n val ++ (List.range (n + 2)).map fun a => (gForm a (n + 1), val a (n + 1)) := by
  simp [triWrites, List.range_succ]

theorem mem_triWrites {a b n : Nat} (h : a ≤ b) (h2 : b ≤ n) (val : Nat → Nat → α) :
    (gForm a b, val a b) ∈ triWrites n val := by
  refine List.mem_flatMap.mpr ⟨b, List.mem_range.mpr (by omega), ?_⟩
  exact List.mem_map.mpr ⟨a, List.mem_range.mpr (by omega), rfl⟩

theorem mem_triWrites_fst {n : Nat} {val : Nat → Nat → α} {p : Nat}
    (h : p ∈ (triWrites n val).map Prod.fst) : ∃ a b, a ≤ b ∧ b ≤ n ∧ p = gForm a b := by
  simp only [triWrites, List.map_flatMap, List.map_map] at h
  obtain ⟨b, hb, hp⟩ := List.mem_flatMap.mp h
  obtain ⟨a, ha, hpa⟩ := List.mem_map.mp hp
  rw [List.mem_range] at hb ha
  exact ⟨a, b, by omega, by omega, hpa.symm⟩

theorem triWrites_fst_nodup (n : Nat) (val : Nat → Nat → α) :
    ((triWrites n val).map Prod.fst).Nodup := by
  induction n with
  | zero => simp [triWrites, List.range_succ]
  | succ n ih =>
    rw [triWrites_succ, List.map_append, List.nodup_append]
    refine ⟨ih, ?_, ?_⟩
    · rw [List.map_map]
      refine List.Nodup.map_on ?_ (List.nodup_range _)
      intro x hx y hy hxy
      simp only [Function.comp_apply] at hxy
      simpa [gForm] using hxy
    · intro p hp hq
      obtain ⟨a, b, hab, hbn, rfl⟩ := mem_triWrites_fst hp
      rw [List.map_map] at hq
      obtain ⟨a', ha', hq'⟩ := List.mem_map.mp hq
      simp only [Function.comp_apply] at hq'
      have ha'le : a' ≤ n + 1 := by
        have := List.mem_range.mp ha'
        omega
      have := gForm_lt_of_lt hab (by omega : b < n + 1) ha'le
      omega

theorem applyWrites_triWrites {a b n : Nat} (f : Nat → α) (val : Nat → Nat → α)
    (h : a ≤ b) (h2 : b ≤ n) : applyWrites f (triWrites n val) (gForm a b) = val a b :=
  applyWrites_eq f _ (triWrites_fst_nodup n val) (mem_triWrites h h2 val)

theorem getD_range_map {α : Type} (f : Nat → α) {p n : Nat} (h : p < n) (d : α) :
    (((List.range n).map f).getD p d) = f p := by
  rw [List.getD_eq_getElem _ _ (by simpa using h)]
  simp

/-- Width tag of the integer columns (`int8_t` / `int16_t` / `int32_t`);
the code dispatches on the width in `establish_PLs` and the caches, so the
tag is kept while the values themselves are modelled as `Int`. -/
inductive IntWidth where
  | i8 | i16 | i32
deriving DecidableEq, Repr

/-- Largest value of the width (`std::numeric_limits<int_t>::max()`). -/
def intMax : IntWidth → Int
  | .i8 => 127
  | .i16 => 32767
  | .i32 => 2147483647

/-- A `bio::ranges::concatenated_sequences`: a flat data vector plus the
delimiter (prefix-sum) vector, as exposed by `raw_data()`. -/
structure ConcatCol (α : Type) where
  data : List α
  delim : List Nat
deriving DecidableEq, Repr

/-- The inner slice for sample `i`: `data[delim[i] .. delim[i+1]]`. -/
def ConcatCol.row (c : ConcatCol α) (i : Nat) : List α :=
  (c.data.take (c.delim.getD (i + 1) 0)).drop (c.delim.getD i 0)

/-- All sample slices of the column, in order. -/
def ConcatCol.rows (c : ConcatCol α) : List (List α) :=
  (List.range (c.delim.length - 1)).map c.row

/-- The delimiter vector `[0, w, 2w, …, outer*w]` produced by
`concatenated_sequences_create_scaffold`. -/
def scaffoldDelim (outer inner : Nat) : List Nat :=
  (List.range (outer + 1)).map fun i => i * inner

/-- A freshly scaffolded column: zero-filled data of size `outer * inner`
(`std::vector::resize` value-initialises) with the scaffold delimiters. -/
def concatScaffold (outer inner : Nat) (z : α) : ConcatCol α :=
  ⟨List.replicate (outer * inner) z, scaffoldDelim outer inner⟩

/-- Assemble a concatenated column from a list of per-sample rows. -/
def mkConcat (rows : List (List α)) : ConcatCol α :=
  ⟨rows.flatten, (List.range (rows.length + 1)).map fun i => ((rows.take i).map List.length).sum⟩

theorem mkConcat_row (rows : List (List α)) {i : Nat} (h : i < rows.length) :
    (mkConcat rows).row i = rows.getD i [] := by
  induction rows generalizing i with
  | nil => simp at h
  | cons r rs ih =>
    match i with
    | 0 =>
      simp only [mkConcat, ConcatCol.row]
      rw [getD_range_map _ (by simp), getD_range_map _ (by simp)]
      simp [List.take_left]
    | j + 1 =>
      have hj : j < rs.length := by simpa using h
      have hstep := ih hj
      simp only [mkConcat, ConcatCol.row] at hstep ⊢
      have hb1 : j + 1 + 1 < (r :: rs).length + 1 := by
        simp only [List.length_cons]
        omega
      have hb2 : j + 1 < (r :: rs).length + 1 := by
        simp only [List.length_cons]
        omega
      rw [getD_range_map _ (by omega), getD_range_map _ (by omega)] at hstep
      rw [getD_range_map _ hb2, getD_range_map _ hb1]
      have h1 : ∀ k : Nat, (((r :: rs).take (k + 1)).map List.length).sum
          = r.length + ((rs.take k).map List.length).sum := by
        intro k
        simp
      rw [h1, h1]
      simp only [List.flatten_cons]
      rw [List.take_append, List.drop_append]
      simpa using hstep

theorem scaffold_row {α : Type} (c : ConcatCol α) {nS w i : Nat}
    (hd : c.delim = scaffoldDelim nS w) (h : i < nS) :
    c.row i = (c.data.drop (i * w)).take w := by
  simp only [ConcatCol.row, hd, scaffoldDelim]
  rw [getD_range_map _ (by omega), getD_range_map _ (by omega), List.drop_take]
  congr 1
  ring_nf
  omega

/-- Runtime-tagged INFO values (the relevant alternatives of
`bio::io::var::info_element_value_type`). -/
inductive InfoValue where
  | intScalar (v : Int)
  | floatScalar (v : ℚ)
  | intVec (w : IntWidth) (v : List Int)
  | floatVec (v : List ℚ)
  | strVal (v : String)
  | flag
deriving DecidableEq, Repr

/-- Runtime-tagged FORMAT values (the relevant alternatives of
`bio::io::var::genotype_element_value_type`): concatenated columns of
integers or floats, and the per-sample string vector used by GT. -/
inductive FmtValue where
  | intCol (w : IntWidth) (c : ConcatCol Int)
  | floatCol (c : ConcatCol ℚ)
  | strVec (v : List String)
deriving DecidableEq, Repr

/-- A parsed variant record (`bio::io::var::record_default`). -/
structure Record where
  chrom : String
  pos : Nat
  id : String
  ref : String
  alt : List String
  qual : ℚ
  filters : List String
  info : List (String × InfoValue)
  genotypes : List (String × FmtValue)
deriving DecidableEq, Repr

/-- Declared multiplicity of a header field (`bio::io::var::header_number`
restricted to what the pipeline dispatches on). -/
inductive FieldNumber where
  | A | R | G | other
deriving DecidableEq, Repr

/-- The header information the pipeline reads: declared numbers per
INFO/FORMAT id. -/
structure Header where
  infoNumber : String → FieldNumber
  formatNumber : String → FieldNumber

/-- Tagged error kinds corresponding to the `decovar_error` throw sites. -/
inductive DError where
  | missingAF
  | afTypeMismatch
  | afLengthMismatch
  | fieldLengthMismatch
  | diploidOrCardinalityMismatch
  | expectedVector
  | plWrongState
  | missingPL
  | fieldAlreadyPresent
  | adTypeMismatch
  | badVariantAccess
  | undefinedAccess
deriving DecidableEq, Repr

instance {ε α : Type} [DecidableEq ε] [DecidableEq α] : DecidableEq (Except ε α) :=
  fun a b =>
    match a, b with
    | .error e, .error e' =>
      if h : e = e' then isTrue (by rw [h]) else isFalse fun hc => h (by cases hc; rfl)
    | .ok x, .ok y =>
      if h : x = y then isTrue (by rw [h]) else isFalse fun hc => h (by cases hc; rfl)
    | .error _, .ok _ => isFalse fun hc => Except.noConfusion hc
    | .ok _, .error _ => isFalse fun hc => Except.noConfusion hc

/-- Value of `*std::ranges::min_element` on a nonempty list (0 on the
empty list, which the code never dereferences). -/
def minOfList : List Int → Int
  | [] => 0
  | x :: xs => xs.foldl min x

theorem foldl_min_le_init {xs : List Int} (a : Int) : xs.foldl min a ≤ a := by
  induction xs generalizing a with
  | nil => simp
  | cons y ys ih => exact le_trans (ih (a := min a y)) (min_le_left _ _)

theorem foldl_min_le {xs : List Int} {a x : Int} (h : x ∈ xs) : xs.foldl min a ≤ x := by
  induction xs generalizing a with
  | nil => simp at h
  | cons y ys ih =>
    rcases List.mem_cons.mp h with rfl | hmem
    · exact le_trans (@foldl_min_le_init ys (min a x)) (min_le_right _ _)
    · exact ih hmem

theorem foldl_min_mem {xs : List Int} (a : Int) : xs.foldl min a = a ∨ xs.foldl min a ∈ xs := by
  induction xs generalizing a with
  | nil => simp
  | cons y ys ih =>
    simp only [List.foldl_cons]
    rcases ih (a := min a y) with h | h
    · rcases le_total a y with hle | hle
      · left
        rw [h, min_eq_left hle]
      · right
        rw [h, min_eq_right hle]
        exact List.mem_cons_self _ _
    · right
      exact List.mem_cons_of_mem _ h

theorem minOfList_le {l : List Int} {x : Int} (h : x ∈ l) : minOfList l ≤ x := by
  match l with
  | [] => simp at h
  | y :: ys =>
    rcases List.mem_cons.mp h with rfl | hmem
    · exact foldl_min_le_init _
    · exact foldl_min_le hmem

theorem minOfList_mem {l : List Int} (h : l ≠ []) : minOfList l ∈ l := by
  match l with
  | [] => exact absurd rfl h
  | y :: ys =>
    rcases @foldl_min_mem ys y with heq | hmem
    · simp [minOfList, heq]
    · exact List.mem_cons_of_mem _ (by simpa [minOfList] using hmem)

theorem foldl_min_map_sub (xs : List Int) (a c : Int) :
    (xs.map (· - c)).foldl min (a - c) = xs.foldl min a - c := by
  induction xs generalizing a with
  | nil => simp
  | cons y ys ih =>
    simp only [List.map_cons, List.foldl_cons]
    rw [min_sub_sub_right]
    exact ih _

theorem minOfList_map_sub {l : List Int} (h : l ≠ []) (c : Int) :
    minOfList (l.map (· - c)) = minOfList l - c := by
  match l with
  | [] => exact absurd rfl h
  | y :: ys => simpa [minOfList] using foldl_min_map_sub ys y c

/-- Scan state of `std::ranges::min_element`: remaining elements, current
position, best position and best value so far; a new best is taken only on
strict `<`, so the first minimum wins. -/
def argminAux [LinearOrder α] : List α → Nat → Nat → α → Nat
  | [], _, bi, _ => bi
  | x :: xs, i, bi, bv => if x < bv then argminAux xs (i + 1) i x else argminAux xs (i + 1) bi bv

/-- Index of `std::ranges::min_element` within the list (0 on empty). -/
def argminIdx [LinearOrder α] : List α → Nat
  | [] => 0
  | x :: xs => argminAux xs 1 0 x

/-- The specification-side characterisation of the index the code's
`min_element` scan returns: a position of the minimum such that every
earlier position holds a strictly larger value. -/
def IsFirstMinIdx (l : List Int) (k : Nat) : Prop :=
  k < l.length ∧ (∀ j < l.length, l.getD k 0 ≤ l.getD j 0) ∧ ∀ j < k, l.getD k 0 < l.getD j 0

theorem argminAux_spec (xs : List Int) :
    ∀ (l : List Int) (i bi : Nat) (bv : Int),
      l.length = i + xs.length → bi < i → l.getD bi 0 = bv →
      (∀ j < i, bv ≤ l.getD j 0) → (∀ j < bi, bv < l.getD j 0) →
      (∀ j < xs.length, l.getD (i + j) 0 = xs.getD j 0) →
      IsFirstMinIdx l (argminAux xs i bi bv) := by
  induction xs with
  | nil =>
    intro l i bi bv hlen hbi hval hmin hstrict _
    simp only [List.length_nil, Nat.add_zero] at hlen
    simp only [argminAux]
    refine ⟨by omega, ?_, ?_⟩
    · intro j hj
      rw [hval]
      exact hmin j (by omega)
    · intro j hj
      rw [hval]
      exact hstrict j hj
  | cons x t ih =>
    intro l i bi bv hlen hbi hval hmin hstrict hxs
    simp only [List.length_cons] at hlen
    have hx : l.getD i 0 = x := by simpa using hxs 0 (by simp)
    have hshift : ∀ j < t.length, l.getD (i + 1 + j) 0 = t.getD j 0 := by
      intro j hj
      have harg : i + 1 + j = i + (j + 1) := by omega
      rw [harg]
      have := hxs (j + 1) (by simp only [List.length_cons]; omega)
      simpa using this
    rw [argminAux]
    by_cases hlt : x < bv
    · rw [if_pos hlt]
      refine ih l (i + 1) i x (by omega) (by omega) hx ?_ ?_ hshift
      · intro j hj
        rcases Nat.lt_or_ge j i with hji | hji
        · exact le_of_lt (lt_of_lt_of_le hlt (hmin j hji))
        · have : j = i := by omega
          subst this
          rw [hx]
      · intro j hj
        exact lt_of_lt_of_le hlt (hmin j hj)
    · rw [if_neg hlt]
      push_neg at hlt
      refine ih l (i + 1) bi bv (by omega) (by omega) hval ?_ hstrict hshift
      intro j hj
      rcases Nat.lt_or_ge j i with hji | hji
      · exact hmin j hji
      · have : j = i := by omega
        subst this
        rw [hx]
        exact hlt

theorem argminIdx_spec {l : List Int} (h : l ≠ []) : IsFirstMinIdx l (argminIdx l) := by
  match l with
  | [] => exact absurd rfl h
  | x :: xs =>
    rw [argminIdx]
    refine argminAux_spec xs (x :: xs) 1 0 x (by simp; omega) (by omega) rfl ?_ (by omega) ?_
    · intro j hj
      have : j = 0 := by omega
      subst this
      simp
    · intro j hj
      have : 1 + j = j + 1 := by omega
      rw [this]
      simp

/-- The scan of `std::ranges::remove_if` over a flat vector; the predicate
consults the filter vector at the running position modulo the filter size
(the modulo down-maps flat concatenated positions to inner positions). -/
def removeGo (fv : List Nat) : List α → Nat → List α
  | [], _ => []
  | x :: xs, i =>
    if fv.getD (i % fv.length) 0 == 0 then x :: removeGo fv xs (i + 1) else removeGo fv xs (i + 1)

/-- `_remove::remove_by_indexes`: stable erasure of the positions flagged
by the filter vector, position taken modulo the filter size. -/
def remove_by_indexes (vec : List α) (fv : List Nat) : List α := removeGo fv vec 0

theorem removeGo_eq_zip {fv : List Nat} (vec : List α) (i : Nat)
    (h : i + vec.length ≤ fv.length) :
    removeGo fv vec i
      = (vec.zip (fv.drop i)).filterMap fun p => if p.2 == 0 then some p.1 else none := by
  induction vec generalizing i with
  | nil => simp [removeGo]
  | cons x xs ih =>
    simp only [List.length_cons] at h
    have hi : i < fv.length := by omega
    rw [removeGo, Nat.mod_eq_of_lt hi, List.getD_eq_getElem _ _ hi,
      List.drop_eq_getElem_cons hi, List.zip_cons_cons, List.filterMap_cons]
    by_cases hz : fv[i] = 0
    · simp [hz, ih (i + 1) (by omega)]
    · simp [hz, ih (i + 1) (by omega)]

theorem remove_by_indexes_eq_zip {fv : List Nat} (vec : List α) (h : vec.length = fv.length) :
    remove_by_indexes vec fv
      = (vec.zip fv).filterMap fun p => if p.2 == 0 then some p.1 else none := by
  rw [remove_by_indexes, removeGo_eq_zip vec 0 (by omega)]
  simp

theorem remove_by_indexes_map_self (vec : List α) (indf : α → Nat) :
    remove_by_indexes vec (vec.map indf) = vec.filter fun x => indf x == 0 := by
  rw [remove_by_indexes_eq_zip vec (by simp)]
  have hzip : vec.zip (vec.map indf) = vec.map fun a => (a, indf a) := by
    simpa using List.zip_map' (id : α → α) indf vec
  rw [hzip, List.filterMap_map]
  clear hzip
  induction vec with
  | nil => simp
  | cons x xs ihx =>
    by_cases hx : indf x = 0
    · simp [List.filterMap_cons, List.filter_cons, hx]
      simpa using ihx
    · simp [List.filterMap_cons, List.filter_cons, hx]
      simpa using ihx

/-- Replace the value stored at list position `i`, keeping the key; this
models a write through a reference bound to `rec.info[i].value`. -/
def setFieldValue : List (String × α) → Nat → α → List (String × α)
  | [], _, _ => []
  | e :: t, 0, v => (e.1, v) :: t
  | e :: t, i + 1, v => e :: setFieldValue t i v

theorem setFieldValue_length (l : List (String × α)) (i : Nat) (v : α) :
    (setFieldValue l i v).length = l.length := by
  induction l generalizing i with
  | nil => rfl
  | cons e t ih =>
    match i with
    | 0 => rfl
    | j + 1 => simp [setFieldValue, ih]

theorem setFieldValue_getD_self (l : List (String × α)) (i : Nat) (h : i < l.length) (v : α)
    (d : String × α) : (setFieldValue l i v).getD i d = ((l.getD i d).1, v) := by
  induction l generalizing i with
  | nil => simp at h
  | cons e t ih =>
    match i with
    | 0 => rfl
    | j + 1 =>
      simp only [setFieldValue, List.getD_cons_succ]
      exact ih j (by simpa using h)

theorem setFieldValue_getD_ne (l : List (String × α)) (i j : Nat) (hne : j ≠ i) (v : α)
    (d : String × α) : (setFieldValue l i v).getD j d = l.getD j d := by
  induction l generalizing i j with
  | nil => simp [setFieldValue]
  | cons e t ih =>
    match i, j with
    | 0, 0 => exact absurd rfl hne
    | 0, k + 1 => rfl
    | m + 1, 0 => rfl
    | m + 1, k + 1 =>
      simp only [setFieldValue, List.getD_cons_succ]
      exact ih m k (by omega)

/-- `_remove::determine_filter_vector_R`: build the R filter vector from
the first INFO entry with id `AF`; `R[0] = 0` and `R[i+1] = 1` iff
`AF[i] < threshold` (strict `<`). -/
def determine_filter_vector_R (info : List (String × InfoValue)) (nAlts : Nat)
    (threshold : ℚ) : Except DError (List Nat) :=
  match info.find? fun e => e.1 == "AF" with
  | none => .error .missingAF
  | some (_, .floatVec afs) =>
    if afs.length ≠ nAlts then .error .afLengthMismatch
    else
      .ok ((List.range (nAlts + 1)).map fun i =>
        if i = 0 then 0 else if afs.getD (i - 1) 0 < threshold then 1 else 0)
  | some _ => .error .afTypeMismatch

/-- The A filter vector: `R` without its leading REF entry
(`copy(R.begin()+1, R.end(), A.begin())` into a buffer of size `n_alts`). -/
def filterVectorA (R : List Nat) : List Nat := R.drop 1

/-- The value `R[a] || R[b]` materialised as an `int` 0/1. -/
def orBit (x y : Nat) : Nat := if x ≠ 0 ∨ y ≠ 0 then 1 else 0

/-- The G filter vector of `_remove::determine_filter_vector_AG`: the loop
over `0 ≤ a ≤ b ≤ n_alts` writes `G[gForm a b] := R[a] || R[b]`. -/
def filterVectorG (R : List Nat) (nAlts : Nat) : List Nat :=
  (List.range (gForm nAlts nAlts + 1)).map
    (applyWrites (fun _ => 0) (triWrites nAlts fun a b => orBit (R.getD a 0) (R.getD b 0)))

/-- The reverse cache `g(a,b) ↦ (a,b)`; the cache only grows between
records and every position `gForm a b` always receives the same pair, so
its first `gForm n n + 1` entries are those written by the loop for `n`. -/
def formulaReverseCache (nAlts : Nat) : List (Nat × Nat) :=
  (List.range (gForm nAlts nAlts + 1)).map
    (applyWrites (fun _ => (0, 0)) (triWrites nAlts fun a b => (a, b)))

/-- The INFO visitor of `_remove::update_infos`: vectors are compacted by
the filter after a length check, anything else is a hard error. -/
def trimInfoValue (fv : List Nat) (v : InfoValue) : Except DError InfoValue :=
  match v with
  | .intVec w vec =>
    if vec.length ≠ fv.length then .error .fieldLengthMismatch
    else .ok (.intVec w (remove_by_indexes vec fv))
  | .floatVec vec =>
    if vec.length ≠ fv.length then .error .fieldLengthMismatch
    else .ok (.floatVec (remove_by_indexes vec fv))
  | _ => .error .expectedVector

/-- `_remove::update_infos`: every INFO entry with declared number R or A
is compacted with the matching filter vector; other entries are kept. -/
def update_infos (hdr : Header) (fvR fvA : List Nat) :
    List (String × InfoValue) → Except DError (List (String × InfoValue))
  | [] => .ok []
  | e :: t =>
    match hdr.infoNumber e.1 with
    | .R => do
      let v' ← trimInfoValue fvR e.2
      let t' ← update_infos hdr fvR fvA t
      .ok ((e.1, v') :: t')
    | .A => do
      let v' ← trimInfoValue fvA e.2
      let t' ← update_infos hdr fvR fvA t
      .ok ((e.1, v') :: t')
    | _ => do
      let t' ← update_infos hdr fvR fvA t
      .ok (e :: t')

/-- Compaction of a concatenated FORMAT column: check the flat size, run
the modulo-indexed `remove_by_indexes` on the flat data, and rewrite the
delimiters to `i * n_alleles_after`. -/
def compactCol (fv : List Nat) (c : ConcatCol α) : Except DError (ConcatCol α) :=
  let nSamples := c.delim.length - 1
  let nBefore := fv.length
  let nAfter := nBefore - fv.sum
  if c.data.length ≠ nSamples * nBefore then .error .diploidOrCardinalityMismatch
  else
    .ok ⟨remove_by_indexes c.data fv, (List.range (nSamples + 1)).map fun i => i * nAfter⟩

/-- Per-sample PL renormalisation: subtract the slice minimum from every
value of the slice, but only when the minimum is strictly positive. -/
def renormRow [LinearOrder α] [Sub α] [Zero α] : List α → List α
  | [] => []
  | x :: xs =>
    let m := xs.foldl min x
    if 0 < m then (x :: xs).map (· - m) else x :: xs

/-- Apply `renormRow` to every sample slice of a column; used on freshly
compacted columns, whose slices partition the flat data exactly. -/
def colRenormalizePL [LinearOrder α] [Sub α] [Zero α] (c : ConcatCol α) : ConcatCol α :=
  ⟨(c.rows.map renormRow).flatten, c.delim⟩

/-- The FORMAT visitor of `_remove::update_genotypes`: concatenated
columns are compacted (PL additionally renormalised); per-sample string
vectors with an A/R/G number hit the error overload. -/
def trimFmtValue (fv : List Nat) (isPL : Bool) (v : FmtValue) : Except DError FmtValue :=
  match v with
  | .intCol w c => do
    let c' ← compactCol fv c
    .ok (.intCol w (if isPL then colRenormalizePL c' else c'))
  | .floatCol c => do
    let c' ← compactCol fv c
    .ok (.floatCol (if isPL then colRenormalizePL c' else c'))
  | .strVec _ => .error .expectedVector

/-- `_remove::update_genotypes`: every FORMAT entry with declared number
R, A or G is compacted with the matching filter vector. -/
def update_genotypes (hdr : Header) (fvR fvA fvG : List Nat) :
    List (String × FmtValue) → Except DError (List (String × FmtValue))
  | [] => .ok []
  | e :: t =>
    match hdr.formatNumber e.1 with
    | .R => do
      let v' ← trimFmtValue fvR (e.1 == "PL") e.2
      let t' ← update_genotypes hdr fvR fvA fvG t
      .ok ((e.1, v') :: t')
    | .A => do
      let v' ← trimFmtValue fvA (e.1 == "PL") e.2
      let t' ← update_genotypes hdr fvR fvA fvG t
      .ok ((e.1, v') :: t')
    | .G => do
      let v' ← trimFmtValue fvG (e.1 == "PL") e.2
      let t' ← update_genotypes hdr fvR fvA fvG t
      .ok ((e.1, v') :: t')
    | .other => do
      let t' ← update_genotypes hdr fvR fvA fvG t
      .ok (e :: t')

/-- Replace the value of the first entry with the given key, keeping the
key; models the in-place write through the `all_GT` span. -/
def replaceFirstVal : List (String × FmtValue) → String → FmtValue → List (String × FmtValue)
  | [], _, _ => []
  | e :: t, key, v => if e.1 == key then (e.1, v) :: t else e :: replaceFirstVal t key v

/-- `fmt::format("{}/{}", a, b)`: the always-unphased genotype string. -/
def gtString (a b : Nat) : String := toString a ++ "/" ++ toString b

/-- `_remove::fix_GT`: recompute every GT string from the index pair the
reverse cache holds at the position of the sample's minimal PL value. -/
def fix_GT (genotypes : List (String × FmtValue)) (rc : List (Nat × Nat)) :
    Except DError (List (String × FmtValue)) :=
  match genotypes.find? fun e => e.1 == "GT" with
  | none => .ok genotypes
  | some (_, .strVec gts) =>
    if gts.isEmpty then .ok genotypes
    else
      match genotypes.find? fun e => e.1 == "PL" with
      | none => .ok genotypes
      | some (_, .intCol _ c) =>
        let rows := c.delim.length - 1
        let newGTs := gts.mapIdx fun i s =>
          if i < rows then
            let p := rc.getD (argminIdx (c.row i)) (0, 0)
            gtString p.1 p.2
          else s
        .ok (replaceFirstVal genotypes "GT" (.strVec newGTs))
      | some (_, .floatCol c) =>
        let rows := c.delim.length - 1
        let newGTs := gts.mapIdx fun i s =>
          if i < rows then
            let p := rc.getD (argminIdx (c.row i)) (0, 0)
            gtString p.1 p.2
          else s
        .ok (replaceFirstVal genotypes "GT" (.strVec newGTs))
      | some (_, .strVec _) => .error .expectedVector
  | some _ => .error .badVariantAccess

/-- `_remove::remove_rare_alleles`: derive the filter triple, short-cut
when no or all alleles are dropped, otherwise compact alt/INFO/FORMAT and
recompute GT; `none` is the "record dropped" sentinel. -/
def remove_rare_alleles (record : Record) (hdr : Header) (threshold : ℚ) :
    Except DError (Option Record) := do
  let nAlts := record.alt.length
  let R ← determine_filter_vector_R record.info nAlts threshold
  let A := filterVectorA R
  let G := filterVectorG R nAlts
  let rc := formulaReverseCache nAlts
  if A.all fun x => x != 0 then
    .ok none
  else if A.any fun x => x != 0 then do
    let info' ← update_infos hdr R A record.info
    let geno' ← update_genotypes hdr R A G record.genotypes
    let geno'' ← fix_GT geno' rc
    .ok (some { record with alt := remove_by_indexes record.alt A, info := info', genotypes := geno'' })
  else
    .ok (some record)

/-- The `remove_rare_alleles_fn` pipeline step of `allele.cpp`: the
removal runs only for multi-allelic records and a nonzero threshold; a
dropped record yields nothing, otherwise the record is yielded. -/
def remove_rare_alleles_fn (threshold : ℚ) (hdr : Header) (record : Record) :
    Except DError (List Record) :=
  if 1 < record.alt.length ∧ threshold ≠ 0 then
    match remove_rare_alleles record hdr threshold with
    | .error e => .error e
    | .ok none => .ok []
    | .ok (some r) => .ok [r]
  else .ok [record]

/-- A header that declares PL as a G-numbered FORMAT field and leaves all
other fields undeclared. -/
def hdrPLG : Header :=
  { infoNumber := fun _ => .other, formatNumber := fun k => if k == "PL" then .G else .other }

/-- A header with no A/R/G declarations at all. -/
def hdrTrivial : Header := { infoNumber := fun _ => .other, formatNumber := fun _ => .other }

/-- A bi-allelic record with a rare second allele and a negative PL value
among the genotype likelihoods of its single sample. -/
def recNegPL : Record :=
  { chrom := "1", pos := 100, id := "v1", ref := "A", alt := ["T", "G"], qual := 0, filters := [],
    info := [("AF", .floatVec [1, 0])],
    genotypes := [("PL", .intCol .i32 ⟨[-5, 3, 7, 9, 9, 9], [0, 6]⟩)] }

/-- A single-ALT record without an AF INFO entry. -/
def recOneAlt : Record :=
  { chrom := "1", pos := 7, id := "v2", ref := "A", alt := ["T"], qual := 0, filters := [],
    info := [], genotypes := [] }

/-- C8: running the rare-allele removal stage with threshold 0 is the
identity: it emits exactly the input record with every field unchanged,
because the stage guard `opts.rare_af_threshold != 0.0` short-circuits. -/
theorem claim_C8_threshold_zero_identity (hdr : Header) (record : Record) :
    remove_rare_alleles_fn 0 hdr record = .ok [record] := by
  rw [remove_rare_alleles_fn, if_neg]
  intro hc
  exact hc.2 rfl

/-- C9: the rare-allele removal stage leaves every record with at most one
ALT allele untouched and raises no error, even for a positive threshold
and without an AF entry, because of the `record.alt.size() > 1` guard. -/
theorem claim_C9_few_alts_passthrough (threshold : ℚ) (hdr : Header) (record : Record)
    (h : record.alt.length ≤ 1) :
    remove_rare_alleles_fn threshold hdr record = .ok [record] := by
  rw [remove_rare_alleles_fn, if_neg]
  intro hc
  omega

theorem claim_C9_witness :
    recOneAlt.alt.length ≤ 1 ∧
      remove_rare_alleles_fn 1 hdrTrivial recOneAlt = .ok [recOneAlt] :=
  ⟨by decide, claim_C9_few_alts_passthrough 1 hdrTrivial recOneAlt (by decide)⟩

/-- C2: for a record whose INFO holds an AF float vector of length
`n_alts`, the derivation yields R with `R[0] = 0` and `R[i+1] = 1` iff
`AF[i] < threshold`; A is the tail of R; and G has length
`gForm n_alts n_alts + 1` with `G[gForm a b] = R[a] OR R[b]`. -/
theorem claim_C2_filter_vectors (info : List (String × InfoValue)) (nAlts : Nat)
    (threshold : ℚ) (key : String) (afs : List ℚ)
    (hfind : info.find? (fun e => e.1 == "AF") = some (key, .floatVec afs))
    (hlen : afs.length = nAlts) :
    ∃ R, determine_filter_vector_R info nAlts threshold = .ok R ∧
      R.length = nAlts + 1 ∧
      R.getD 0 0 = 0 ∧
      (∀ i < nAlts, (R.getD (i + 1) 0 = 1 ↔ afs.getD i 0 < threshold)
        ∧ (R.getD (i + 1) 0 = 0 ↔ ¬ afs.getD i 0 < threshold)) ∧
      filterVectorA R = R.drop 1 ∧
      (filterVectorG R nAlts).length = gForm nAlts nAlts + 1 ∧
      ∀ a b, a ≤ b → b ≤ nAlts →
        (filterVectorG R nAlts).getD (gForm a b) 0 = orBit (R.getD a 0) (R.getD b 0) := by
  refine ⟨(List.range (nAlts + 1)).map fun i =>
    if i = 0 then 0 else if afs.getD (i - 1) 0 < threshold then 1 else 0, ?_, ?_, ?_, ?_, rfl,
    by simp [filterVectorG], ?_⟩
  · simp only [determine_filter_vector_R, hfind]
    rw [if_neg (by simp [hlen])]
  · simp
  · rw [getD_range_map _ (by omega)]
    simp
  · intro i hi
    rw [getD_range_map _ (by omega)]
    simp only [Nat.succ_ne_zero, if_false, Nat.add_sub_cancel]
    by_cases hcomp : afs.getD i 0 < threshold
    · simp [hcomp]
    · simp [hcomp]
  · intro a b hab hbn
    rw [filterVectorG, getD_range_map _ (by have := gForm_le_self hab hbn; omega)]
    exact applyWrites_triWrites _ _ hab hbn

/-- An AF-bearing INFO mapping used to instantiate C2. -/
def infoC2 : List (String × InfoValue) := [("AF", .floatVec [2, 0])]

theorem claim_C2_witness :
    ∃ R, determine_filter_vector_R infoC2 2 1 = .ok R ∧
      R.length = 2 + 1 ∧
      R.getD 0 0 = 0 ∧
      (∀ i < 2, (R.getD (i + 1) 0 = 1 ↔ ([2, 0] : List ℚ).getD i 0 < 1)
        ∧ (R.getD (i + 1) 0 = 0 ↔ ¬ ([2, 0] : List ℚ).getD i 0 < 1)) ∧
      filterVectorA R = R.drop 1 ∧
      (filterVectorG R 2).length = gForm 2 2 + 1 ∧
      ∀ a b, a ≤ b → b ≤ 2 →
        (filterVectorG R 2).getD (gForm a b) 0 = orBit (R.getD a 0) (R.getD b 0) :=
  claim_C2_filter_vectors infoC2 2 1 "AF" [2, 0] rfl rfl

/-- C3, counterexample: a record whose post-compaction PL slice has the
negative minimum -5; the guard `if (min > 0)` skips the subtraction, so
the slice survives unchanged and its minimum is not 0. -/
theorem claim_C3_counterexample :
    remove_rare_alleles recNegPL hdrPLG 1
      = .ok (some { recNegPL with
          alt := ["T"],
          genotypes := [("PL", .intCol .i32 ⟨[-5, 3, 7], [0, 3]⟩)] }) ∧
    minOfList ((ConcatCol.mk ([-5, 3, 7] : List Int) [0, 3]).row 0) ≠ 0 := by
  constructor
  · decide
  · decide

/-- C3, amended: the renormalisation subtracts the slice minimum only
when it is strictly positive; consequently, for every nonempty sample
slice of nonnegative PL values the minimum is subtracted from every value
and the resulting minimum is 0 (slices with a negative minimum are left
unchanged, violating the original claim). -/
theorem claim_C3_renorm_nonneg (row : List Int) (hne : row ≠ [])
    (hpos : ∀ x ∈ row, 0 ≤ x) :
    renormRow row = row.map (· - minOfList row) ∧ minOfList (renormRow row) = 0 := by
  match row with
  | [] => exact absurd rfl hne
  | x :: xs =>
    have hmin_eq : minOfList (x :: xs) = xs.foldl min x := rfl
    by_cases hgt : 0 < xs.foldl min x
    · have h1 : renormRow (x :: xs) = (x :: xs).map (· - minOfList (x :: xs)) := by
        simp only [renormRow, hmin_eq]
        rw [if_pos hgt]
      refine ⟨h1, ?_⟩
      rw [h1, minOfList_map_sub (by simp)]
      omega
    · have hge : (0 : Int) ≤ minOfList (x :: xs) := hpos _ (minOfList_mem (by simp))
      have hz : minOfList (x :: xs) = 0 := by
        rw [hmin_eq] at hge ⊢
        omega
      have h1 : renormRow (x :: xs) = x :: xs := by
        simp only [renormRow]
        rw [if_neg hgt]
      refine ⟨?_, by rw [h1, hz]⟩
      rw [h1, hz]
      simp

theorem claim_C3_witness :
    (([3, 5] : List Int) ≠ [] ∧ ∀ x ∈ ([3, 5] : List Int), 0 ≤ x) ∧
      (renormRow ([3, 5] : List Int) = ([3, 5] : List Int).map (· - minOfList [3, 5]) ∧
        minOfList (renormRow ([3, 5] : List Int)) = 0) :=
  ⟨⟨by decide, by decide⟩, claim_C3_renorm_nonneg [3, 5] (by decide) (by decide)⟩

/-- C4: after rare-allele removal, for a record carrying both GT and PL,
`fix_GT` rewrites every sample's GT to "a/b" (unphased) where (a, b) is
the reverse-cache pair at the first index of the minimum of the sample's
post-removal PL slice; when PL is absent the genotypes are unchanged. -/
theorem claim_C4_fix_GT :
    (∀ (genotypes : List (String × FmtValue)) (rc : List (Nat × Nat)) (gkey pkey : String)
        (gts : List String) (w : IntWidth) (c : ConcatCol Int),
      genotypes.find? (fun e => e.1 == "GT") = some (gkey, .strVec gts) →
      genotypes.find? (fun e => e.1 == "PL") = some (pkey, .intCol w c) →
      gts ≠ [] →
      (∀ i < c.delim.length - 1, c.row i ≠ []) →
      ∃ newGTs, fix_GT genotypes rc = .ok (replaceFirstVal genotypes "GT" (.strVec newGTs)) ∧
        newGTs.length = gts.length ∧
        ∀ i, i < c.delim.length - 1 → i < gts.length →
          ∃ k, IsFirstMinIdx (c.row i) k ∧
            newGTs.getD i "" = gtString (rc.getD k (0, 0)).1 (rc.getD k (0, 0)).2) ∧
    (∀ (genotypes : List (String × FmtValue)) (rc : List (Nat × Nat)) (gkey : String)
        (gts : List String),
      genotypes.find? (fun e => e.1 == "GT") = some (gkey, .strVec gts) →
      genotypes.find? (fun e => e.1 == "PL") = none →
      fix_GT genotypes rc = .ok genotypes) := by
  constructor
  · intro genotypes rc gkey pkey gts w c hGT hPL hne hrows
    have hemp : gts.isEmpty = false := by
      rw [Bool.eq_false_iff]
      intro h
      exact hne (List.isEmpty_iff.mp h)
    refine ⟨gts.mapIdx fun i s =>
        if i < c.delim.length - 1 then
          gtString (rc.getD (argminIdx (c.row i)) (0, 0)).1
            (rc.getD (argminIdx (c.row i)) (0, 0)).2
        else s, ?_, List.length_mapIdx, ?_⟩
    · simp only [fix_GT, hGT, hemp, Bool.false_eq_true, if_false, hPL]
    · intro i hirows higts
      refine ⟨argminIdx (c.row i), argminIdx_spec (hrows i hirows), ?_⟩
      have hlt : i < (gts.mapIdx fun i s =>
          if i < c.delim.length - 1 then
            gtString (rc.getD (argminIdx (c.row i)) (0, 0)).1
              (rc.getD (argminIdx (c.row i)) (0, 0)).2
          else s).length := by
        rw [List.length_mapIdx]
        exact higts
      rw [List.getD_eq_getElem _ _ hlt, List.getElem_mapIdx, if_pos hirows]
  · intro genotypes rc gkey gts hGT hPLnone
    cases hemp : gts.isEmpty
    · simp only [fix_GT, hGT, hemp, Bool.false_eq_true, if_false, hPLnone]
    · simp only [fix_GT, hGT, hemp, if_true]

/-- The genotype mapping used to instantiate C4: one sample, a phased GT
and a three-entry PL slice whose minimum sits at position 1. -/
def genC4 : List (String × FmtValue) :=
  [("GT", .strVec ["0|1"]), ("PL", .intCol .i32 ⟨[10, 2, 5], [0, 3]⟩)]

/-- The reverse cache for one ALT allele. -/
def rcC4 : List (Nat × Nat) := [(0, 0), (0, 1), (1, 1)]

theorem claim_C4_witness :
    ∃ newGTs, fix_GT genC4 rcC4 = .ok (replaceFirstVal genC4 "GT" (.strVec newGTs)) ∧
      newGTs.length = (["0|1"] : List String).length ∧
      ∀ i, i < (ConcatCol.mk ([10, 2, 5] : List Int) [0, 3]).delim.length - 1 →
        i < (["0|1"] : List String).length →
        ∃ k, IsFirstMinIdx ((ConcatCol.mk ([10, 2, 5] : List Int) [0, 3]).row i) k ∧
          newGTs.getD i "" = gtString (rcC4.getD k (0, 0)).1 (rcC4.getD k (0, 0)).2 :=
  claim_C4_fix_GT.1 genC4 rcC4 "GT" "PL" ["0|1"] .i32 ⟨[10, 2, 5], [0, 3]⟩ rfl rfl
    (by decide) (by decide)

/-- `_split::which_t`: which side of the length cutoff gets removed. -/
inductive SplitWhich where
  | leq | gt
deriving DecidableEq, Repr

/-- `_split::determine_filter_vector_R`:
`R[i+1] = (alt[i].size() <= cutoff) == (which == leq)`, `R[0] = 0`. -/
def split_determine_filter_vector_R (record : Record) (cutoff : Nat) (which : SplitWhich) :
    List Nat :=
  0 :: (record.alt.map fun a =>
    if (a.length ≤ cutoff) ↔ which = SplitWhich.leq then 1 else 0)

/-- `_split::needs_splitting`: at least two ALT alleles with both a short
and a long one present. -/
def needs_splitting (record : Record) (cutoff : Nat) : Bool :=
  if record.alt.length ≤ 1 then false
  else
    (record.alt.any fun a => decide (a.length ≤ cutoff))
      && (record.alt.any fun a => decide (cutoff < a.length))

/-- `_split::remove_alleles`: derive the split filter triple and apply
the same alt/INFO/FORMAT/GT rewrites as rare-allele removal. -/
def split_remove_alleles (record : Record) (which : SplitWhich) (cutoff : Nat)
    (hdr : Header) : Except DError Record := do
  let R := split_determine_filter_vector_R record cutoff which
  let A := filterVectorA R
  let G := filterVectorG R record.alt.length
  let rc := formulaReverseCache record.alt.length
  let info' ← update_infos hdr R A record.info
  let geno' ← update_genotypes hdr R A G record.genotypes
  let geno'' ← fix_GT geno' rc
  .ok { record with alt := remove_by_indexes record.alt A, info := info', genotypes := geno'' }

/-- The `split_fn` pipeline step of `allele.cpp`: when the splitter is
enabled and the record needs splitting, the short copy (suffix `_split1`)
is built by removing the long alleles and yielded first, then the long
copy (suffix `_split2`); otherwise the record passes unchanged. -/
def split_fn (cutoff : Nat) (hdr : Header) (record : Record) : Except DError (List Record) :=
  if 0 < cutoff ∧ needs_splitting record cutoff = true then do
    let rec0 ← split_remove_alleles
      { record with id := if record.id ≠ "." then record.id ++ "_split1" else record.id }
      .gt cutoff hdr
    let rec1 ← split_remove_alleles
      { record with id := if record.id ≠ "." then record.id ++ "_split2" else record.id }
      .leq cutoff hdr
    .ok [rec0, rec1]
  else .ok [record]

theorem exceptBind_ok {ε α β : Type} (x : α) (f : α → Except ε β) :
    (Except.ok x : Except ε α) >>= f = f x := rfl

theorem exceptBind_error {ε α β : Type} (e : ε) (f : α → Except ε β) :
    (Except.error e : Except ε α) >>= f = Except.error e := rfl

theorem split_remove_alleles_ok {record : Record} {which : SplitWhich} {cutoff : Nat}
    {hdr : Header} {r : Record}
    (h : split_remove_alleles record which cutoff hdr = .ok r) :
    r.alt = remove_by_indexes record.alt
        (filterVectorA (split_determine_filter_vector_R record cutoff which)) ∧
      r.id = record.id := by
  rw [split_remove_alleles] at h
  cases h1 : update_infos hdr (split_determine_filter_vector_R record cutoff which)
      (filterVectorA (split_determine_filter_vector_R record cutoff which)) record.info with
  | error e =>
    rw [h1] at h
    rw [exceptBind_error] at h
    exact Except.noConfusion h
  | ok info' =>
    rw [h1] at h
    rw [exceptBind_ok] at h
    cases h2 : update_genotypes hdr (split_determine_filter_vector_R record cutoff which)
        (filterVectorA (split_determine_filter_vector_R record cutoff which))
        (filterVectorG (split_determine_filter_vector_R record cutoff which) record.alt.length)
        record.genotypes with
    | error e =>
      rw [h2] at h
      rw [exceptBind_error] at h
      exact Except.noConfusion h
    | ok geno' =>
      rw [h2] at h
      rw [exceptBind_ok] at h
      cases h3 : fix_GT geno' (formulaReverseCache record.alt.length) with
      | error e =>
        rw [h3] at h
        rw [exceptBind_error] at h
        exact Except.noConfusion h
      | ok geno'' =>
        rw [h3] at h
        rw [exceptBind_ok] at h
        simp only [Except.ok.injEq] at h
        rw [← h]
        exact ⟨rfl, rfl⟩

theorem split_filter_gt (record : Record) (cutoff : Nat) :
    remove_by_indexes record.alt
        (filterVectorA (split_determine_filter_vector_R record cutoff .gt))
      = record.alt.filter fun a => decide (a.length ≤ cutoff) := by
  have : filterVectorA (split_determine_filter_vector_R record cutoff .gt)
      = record.alt.map fun a => if (a.length ≤ cutoff) ↔ SplitWhich.gt = SplitWhich.leq then 1 else 0 :=
    rfl
  rw [this, remove_by_indexes_map_self]
  refine List.filter_congr ?_
  intro a _
  by_cases hc : a.length ≤ cutoff
  · simp [hc]
  · simp [hc]

theorem split_filter_leq (record : Record) (cutoff : Nat) :
    remove_by_indexes record.alt
        (filterVectorA (split_determine_filter_vector_R record cutoff .leq))
      = record.alt.filter fun a => decide (cutoff < a.length) := by
  have : filterVectorA (split_determine_filter_vector_R record cutoff .leq)
      = record.alt.map fun a => if (a.length ≤ cutoff) ↔ SplitWhich.leq = SplitWhich.leq then 1 else 0 :=
    rfl
  rw [this, remove_by_indexes_map_self]
  refine List.filter_congr ?_
  intro a _
  by_cases hc : a.length ≤ cutoff
  · simp [hc]
  · simp [hc]
    omega

/-- C6: `needs_splitting` holds iff the record has at least two ALT
alleles with both a short and a long one; when it holds, the splitter
emits exactly two records, first the copy keeping the short ALTs (id
suffix `_split1` for a non-"." id) and then the copy keeping the long
ALTs (suffix `_split2`), each in original relative order; otherwise the
record is emitted unchanged. -/
theorem claim_C6_split (cutoff : Nat) (hdr : Header) (record : Record) (hcut : 0 < cutoff) :
    (needs_splitting record cutoff = true ↔
      (2 ≤ record.alt.length ∧ (∃ a ∈ record.alt, a.length ≤ cutoff) ∧
        ∃ a ∈ record.alt, cutoff < a.length)) ∧
    (needs_splitting record cutoff = true →
      ∀ out, split_fn cutoff hdr record = .ok out →
        ∃ r0 r1, out = [r0, r1] ∧
          r0.alt = (record.alt.filter fun a => decide (a.length ≤ cutoff)) ∧
          r1.alt = (record.alt.filter fun a => decide (cutoff < a.length)) ∧
          (record.id ≠ "." → r0.id = record.id ++ "_split1" ∧ r1.id = record.id ++ "_split2") ∧
          (record.id = "." → r0.id = record.id ∧ r1.id = record.id)) ∧
    (needs_splitting record cutoff = false → split_fn cutoff hdr record = .ok [record]) := by
  refine ⟨?_, ?_, ?_⟩
  · rw [needs_splitting]
    by_cases hlen : record.alt.length ≤ 1
    · rw [if_pos hlen]
      constructor
      · intro hc
        exact absurd hc (by simp)
      · intro hc
        omega
    · rw [if_neg hlen]
      rw [Bool.and_eq_true, List.any_eq_true, List.any_eq_true]
      constructor
      · rintro ⟨⟨a1, ha1, hd1⟩, ⟨a2, ha2, hd2⟩⟩
        exact ⟨by omega, ⟨a1, ha1, by simpa using hd1⟩, ⟨a2, ha2, by simpa using hd2⟩⟩
      · rintro ⟨_, ⟨a1, ha1, hd1⟩, ⟨a2, ha2, hd2⟩⟩
        exact ⟨⟨a1, ha1, by simpa using hd1⟩, ⟨a2, ha2, by simpa using hd2⟩⟩
  · intro hneed out hout
    rw [split_fn, if_pos ⟨hcut, hneed⟩] at hout
    cases h0 : split_remove_alleles
        { record with id := if record.id ≠ "." then record.id ++ "_split1" else record.id }
        .gt cutoff hdr with
    | error e =>
      rw [h0] at hout
      rw [exceptBind_error] at hout
      exact Except.noConfusion hout
    | ok r0 =>
      rw [h0] at hout
      rw [exceptBind_ok] at hout
      cases h1 : split_remove_alleles
          { record with id := if record.id ≠ "." then record.id ++ "_split2" else record.id }
          .leq cutoff hdr with
      | error e =>
        rw [h1] at hout
        rw [exceptBind_error] at hout
        exact Except.noConfusion hout
      | ok r1 =>
        rw [h1] at hout
        rw [exceptBind_ok] at hout
        simp only [Except.ok.injEq] at hout
        obtain ⟨ha0, hid0⟩ := split_remove_alleles_ok h0
        obtain ⟨ha1, hid1⟩ := split_remove_alleles_ok h1
        refine ⟨r0, r1, hout.symm, ?_, ?_, ?_, ?_⟩
        · rw [ha0]
          exact split_filter_gt _ cutoff
        · rw [ha1]
          exact split_filter_leq _ cutoff
        · intro hdot
          rw [hid0, hid1]
          simp [hdot]
        · intro hdot
          rw [hid0, hid1]
          simp [hdot]
  · intro hfalse
    rw [split_fn, if_neg]
    intro hc
    rw [hfalse] at hc
    exact Bool.false_ne_true hc.2

/-- The record used to instantiate C6: one short and one long ALT. -/
def recSplit : Record :=
  { chrom := "1", pos := 5, id := "rs5", ref := "A", alt := ["T", "ATG"], qual := 0,
    filters := [], info := [], genotypes := [] }

theorem claim_C6_witness :
    ((needs_splitting recSplit 2 = true ↔
        (2 ≤ recSplit.alt.length ∧ (∃ a ∈ recSplit.alt, a.length ≤ 2) ∧
          ∃ a ∈ recSplit.alt, 2 < a.length)) ∧
      (needs_splitting recSplit 2 = true →
        ∀ out, split_fn 2 hdrTrivial recSplit = .ok out →
          ∃ r0 r1, out = [r0, r1] ∧
            r0.alt = (recSplit.alt.filter fun a => decide (a.length ≤ 2)) ∧
            r1.alt = (recSplit.alt.filter fun a => decide (2 < a.length)) ∧
            (recSplit.id ≠ "." → r0.id = recSplit.id ++ "_split1" ∧ r1.id = recSplit.id ++ "_split2") ∧
            (recSplit.id = "." → r0.id = recSplit.id ∧ r1.id = recSplit.id)) ∧
      (needs_splitting recSplit 2 = false → split_fn 2 hdrTrivial recSplit = .ok [recSplit])) ∧
    split_fn 2 hdrTrivial recSplit
      = .ok [{ recSplit with id := "rs5_split1", alt := ["T"] },
             { recSplit with id := "rs5_split2", alt := ["ATG"] }] :=
  ⟨claim_C6_split 2 hdrTrivial recSplit (by decide), by decide⟩

/-- The accumulated per-allele probability of `determine_laa`: each loop
step adds `PL_to_prob(PL[gForm a b])` to both `probs_buf[a]` and
`probs_buf[b]`.  `PL_to_prob` computes `pow(10, -PL/10)` on doubles, so it
is kept abstract as a parameter `f`; the in-place accumulation is
flattened into a per-index sum, which is the same value because rational
addition is commutative and associative. -/
def accProb (f : Int → ℚ) (nAlts : Nat) (pl : List Int) (i : Nat) : ℚ :=
  (((List.range (nAlts + 1)).flatMap fun b =>
      (List.range (b + 1)).map fun a => (a, b)).map fun ab =>
    (if ab.1 = i then f (pl.getD (gForm ab.1 ab.2) 0) else 0)
      + (if ab.2 = i then f (pl.getD (gForm ab.1 ab.2) 0) else 0)).sum

/-- `std::ranges::greater` projected on the probability component: the
comparator of the first sort in `determine_laa`. -/
def probDescRel : (ℚ × Nat) → (ℚ × Nat) → Prop := fun x y => y.1 ≤ x.1

/-- `std::ranges::less` projected on the index component: the comparator
of the second sort in `determine_laa`. -/
def idxAscRel : (ℚ × Nat) → (ℚ × Nat) → Prop := fun x y => x.2 ≤ y.2

instance : DecidableRel probDescRel := fun a b => (inferInstance : Decidable (b.1 ≤ a.1))

instance : DecidableRel idxAscRel := fun a b => (inferInstance : Decidable (a.2 ≤ b.2))

instance : IsTotal (ℚ × Nat) probDescRel := ⟨fun a b => le_total b.1 a.1⟩

instance : IsTrans (ℚ × Nat) probDescRel := ⟨fun _ _ _ h1 h2 => le_trans h2 h1⟩

instance : IsTotal (ℚ × Nat) idxAscRel := ⟨fun a b => le_total a.2 b.2⟩

instance : IsTrans (ℚ × Nat) idxAscRel := ⟨fun _ _ _ h1 h2 => le_trans h1 h2⟩

/-- The `probs_buf` of `determine_laa` after accumulation: one pair per
allele, probability first, original index second. -/
def laaProbs (f : Int → ℚ) (nAlts : Nat) (pl : List Int) : List (ℚ × Nat) :=
  (List.range (nAlts + 1)).map fun i => (accProb f nAlts pl i, i)

/-- The buffer after the first sort: everything but the REF pair sorted
by probability descending (`sort(begin+1, end, greater, first)`).  The
unspecified tie order of `std::ranges::sort` is modelled by insertion
sort; every property proved below is independent of the tie order. -/
def laaSorted1 (f : Int → ℚ) (nAlts : Nat) (pl : List Int) : List (ℚ × Nat) :=
  (laaProbs f nAlts pl).take 1
    ++ List.insertionSort probDescRel ((laaProbs f nAlts pl).drop 1)

/-- The buffer after the second sort: the first `L + 1` pairs re-sorted
by original index ascending (`sort(begin, begin+L+1, less, second)`). -/
def laaSorted2 (f : Int → ℚ) (L nAlts : Nat) (pl : List Int) : List (ℚ × Nat) :=
  List.insertionSort idxAscRel ((laaSorted1 f nAlts pl).take (L + 1))
    ++ (laaSorted1 f nAlts pl).drop (L + 1)

/-- One sample's LAA row: positions `1 … L` of the twice-sorted buffer,
index components only (`elements<1> | slice(1, L+1)`). -/
def determine_laa_sample (f : Int → ℚ) (L nAlts : Nat) (pl : List Int) : List Nat :=
  (((laaSorted2 f L nAlts pl).drop 1).take L).map Prod.snd

theorem range_succ_cons (n : Nat) : List.range (n + 1) = 0 :: List.range' 1 n := by
  rw [List.range_eq_range', List.range'_succ]

theorem determine_laa_sample_spec (f : Int → ℚ) (L nAlts : Nat) (pl : List Int)
    (hLn : L ≤ nAlts) :
    (determine_laa_sample f L nAlts pl).length = L ∧
    (determine_laa_sample f L nAlts pl).Pairwise (· < ·) ∧
    (∀ x ∈ determine_laa_sample f L nAlts pl, 1 ≤ x ∧ x ≤ nAlts) ∧
    (∀ x ∈ determine_laa_sample f L nAlts pl, ∀ k, 1 ≤ k → k ≤ nAlts →
      k ∉ determine_laa_sample f L nAlts pl →
      accProb f nAlts pl k ≤ accProb f nAlts pl x) := by
  have hone : (1 : Nat) ≤ 1 := le_refl 1
  obtain ⟨g, hgdef⟩ : ∃ g : Nat → ℚ × Nat, g = fun i => (accProb f nAlts pl i, i) := ⟨_, rfl⟩
  have hgsnd : ∀ i, (g i).2 = i := fun i => by rw [hgdef]
  have hgfst : ∀ i, (g i).1 = accProb f nAlts pl i := fun i => by rw [hgdef]
  obtain ⟨A, hAdef⟩ : ∃ A : List (ℚ × Nat), A = (List.range' 1 nAlts).map g := ⟨_, rfl⟩
  have hA_mem : ∀ x ∈ A, x = g x.2 ∧ 1 ≤ x.2 ∧ x.2 ≤ nAlts := by
    intro x hx
    rw [hAdef] at hx
    obtain ⟨i, hi, rfl⟩ := List.mem_map.mp hx
    rw [List.mem_range'] at hi
    obtain ⟨j, hj, rfl⟩ := hi
    rw [hgsnd]
    exact ⟨rfl, by omega, by omega⟩
  have hA_snd : A.map Prod.snd = List.range' 1 nAlts := by
    rw [hAdef, List.map_map]
    have : (Prod.snd ∘ g) = id := funext fun i => hgsnd i
    rw [this, List.map_id]
  have hAlen : A.length = nAlts := by rw [hAdef]; simp
  obtain ⟨S, hSdef⟩ : ∃ S, S = List.insertionSort probDescRel A := ⟨_, rfl⟩
  have hSperm : S.Perm A := hSdef ▸ List.perm_insertionSort _ _
  have hSsort : S.Sorted probDescRel := hSdef ▸ List.sorted_insertionSort _ _
  have hSlen : S.length = nAlts := hSperm.length_eq.trans hAlen
  have hS_mem : ∀ x ∈ S, x ∈ A := fun x hx => hSperm.mem_iff.mp hx
  have hmc : laaProbs f nAlts pl = g 0 :: A := by
    rw [laaProbs, range_succ_cons, List.map_cons, ← hgdef, ← hAdef]
    rw [hgdef]
  have h1 : laaSorted1 f nAlts pl = g 0 :: S := by
    rw [laaSorted1, hmc, hSdef]
    rfl
  obtain ⟨T, hTdef⟩ : ∃ T, T = S.take L := ⟨_, rfl⟩
  obtain ⟨B, hBdef⟩ : ∃ B, B = S.drop L := ⟨_, rfl⟩
  have hTlen : T.length = L := by rw [hTdef, List.length_take]; omega
  have hT_mem : ∀ x ∈ T, x ∈ S := fun x hx => List.take_subset _ _ (hTdef ▸ hx)
  have h2 : laaSorted2 f L nAlts pl = List.insertionSort idxAscRel (g 0 :: T) ++ B := by
    rw [laaSorted2, h1, List.take_succ_cons, List.drop_succ_cons, ← hTdef, ← hBdef]
  obtain ⟨F, hFdef⟩ : ∃ F, F = List.insertionSort idxAscRel (g 0 :: T) := ⟨_, rfl⟩
  have hFperm : F.Perm (g 0 :: T) := hFdef ▸ List.perm_insertionSort _ _
  have hFsort : F.Sorted idxAscRel := hFdef ▸ List.sorted_insertionSort _ _
  have hFlen : F.length = L + 1 := by rw [hFperm.length_eq]; simp [hTlen]
  match hFcase : F with
  | [] => simp at hFlen
  | h :: t =>
    have hsc := List.sorted_cons.mp hFsort
    have hhead : h = g 0 := by
      have hg0F : g 0 ∈ h :: t := hFperm.mem_iff.mpr (List.mem_cons_self _ _)
      rcases List.mem_cons.mp hg0F with heq | hmem
      · exact heq.symm
      · have hle : idxAscRel h (g 0) := hsc.1 _ hmem
        have hh_mem : h ∈ g 0 :: T := hFperm.mem_iff.mp (List.mem_cons_self _ _)
        rcases List.mem_cons.mp hh_mem with heq2 | hmem2
        · exact heq2
        · have := (hA_mem h (hS_mem h (hT_mem h hmem2))).2.1
          rw [idxAscRel, hgsnd] at hle
          omega
    rw [hhead] at hFperm hsc
    have htperm : t.Perm T := hFperm.cons_inv
    have htlen : t.length = L := htperm.length_eq.trans hTlen
    have hkey : determine_laa_sample f L nAlts pl = t.map Prod.snd := by
      rw [determine_laa_sample, h2, ← hFdef]
      have hd : ((h :: t) ++ B).drop 1 = t ++ B := rfl
      rw [hd]
      congr 1
      rw [← htlen]
      exact List.take_left t B
    have ht_mem_A : ∀ x ∈ t, x ∈ A := fun x hx =>
      hS_mem _ (hT_mem _ (htperm.mem_iff.mp hx))
    have hsnd_nodup : (t.map Prod.snd).Nodup := by
      have h1' : (List.range' 1 nAlts).Nodup := List.nodup_range' 1 nAlts 1 (by omega)
      have h2' : (S.map Prod.snd).Nodup := ((hSperm.map Prod.snd).nodup_iff).mpr (hA_snd ▸ h1')
      have h3' : (T.map Prod.snd).Nodup := by
        have : T.map Prod.snd = (S.map Prod.snd).take L := by rw [hTdef, List.map_take]
        rw [this]
        exact h2'.sublist (List.take_sublist _ _)
      exact ((htperm.map Prod.snd).nodup_iff).mpr h3'
    refine ⟨by rw [hkey, List.length_map, htlen], ?_, ?_, ?_⟩
    · rw [hkey]
      have hle : (t.map Prod.snd).Pairwise (· ≤ ·) := by
        rw [List.pairwise_map]
        exact hsc.2
      exact (hle.and hsnd_nodup).imp fun hpq => lt_of_le_of_ne hpq.1 hpq.2
    · intro x hx
      rw [hkey] at hx
      obtain ⟨p, hp, rfl⟩ := List.mem_map.mp hx
      exact (hA_mem p (ht_mem_A p hp)).2
    · intro x hx k hk1 hk2 hknot
      rw [hkey] at hx hknot
      obtain ⟨p, hp, rfl⟩ := List.mem_map.mp hx
      have hpA := hA_mem p (ht_mem_A p hp)
      have hpT : p ∈ S.take L := hTdef ▸ htperm.mem_iff.mp hp
      have hgkA : g k ∈ A := by
        rw [hAdef]
        refine List.mem_map.mpr ⟨k, ?_, rfl⟩
        rw [List.mem_range']
        exact ⟨k - 1, by omega, by omega⟩
      have hgkS : g k ∈ S := hSperm.mem_iff.mpr hgkA
      have hgkB : g k ∈ S.drop L := by
        rcases (List.mem_append.mp (by rw [List.take_append_drop]; exact hgkS :
            g k ∈ S.take L ++ S.drop L)) with hin | hin
        · exfalso
          apply hknot
          have : k ∈ T.map Prod.snd := by
            refine List.mem_map.mpr ⟨g k, hTdef ▸ hin, hgsnd k⟩
          exact ((htperm.map Prod.snd).mem_iff).mpr this
        · exact hin
      have hrel : probDescRel p (g k) := hSsort.rel_of_mem_take_of_mem_drop hpT hgkB
      rw [probDescRel, hgfst] at hrel
      calc accProb f nAlts pl k ≤ p.1 := hrel
        _ = (g p.2).1 := by rw [← hpA.1]
        _ = accProb f nAlts pl p.2 := hgfst _

/-- One sample's LAD row: the REF depth first, then the depth of each
locally retained allele (`push_back_inner(sample_AD[0])` followed by
`push_back_inner(sample_AD[i])` for each `i` in the LAA row). -/
def localise_LAD_sample (sampleAD : List Int) (laa : List Nat) : List Int :=
  sampleAD.getD 0 0 :: laa.map fun i => sampleAD.getD i 0

theorem localise_LAD_sample_length (sampleAD : List Int) (laa : List Nat) :
    (localise_LAD_sample sampleAD laa).length = laa.length + 1 := by
  simp [localise_LAD_sample]

theorem localise_LAD_sample_zero (sampleAD : List Int) (laa : List Nat) :
    (localise_LAD_sample sampleAD laa).getD 0 0 = sampleAD.getD 0 0 := rfl

theorem localise_LAD_sample_succ (sampleAD : List Int) (laa : List Nat) {j : Nat}
    (hj : j < laa.length) :
    (localise_LAD_sample sampleAD laa).getD (j + 1) 0 = sampleAD.getD (laa.getD j 0) 0 := by
  rw [localise_LAD_sample, List.getD_cons_succ]
  rw [List.getD_eq_getElem _ _ (by simpa using hj), List.getElem_map,
    List.getD_eq_getElem _ _ hj]

/-- The local index mapped back to the global allele space: 0 stays REF,
`a ≥ 1` maps to `sample_LAA[a-1]`. -/
def locInd (laa : List Nat) (x : Nat) : Nat := if x = 0 then 0 else laa.getD (x - 1) 0

/-- The write sequence of the LPL loop of `localise_alleles`:
`sample_LPL[0] := sample_PL[0]`, then for `1 ≤ b ≤ L` the `a = 0` cell
and the inner loop over `1 ≤ a ≤ b`, in program order. -/
def lplWrites (L : Nat) (laa : List Nat) (pl : List Int) : List (Nat × Int) :=
  (0, pl.getD 0 0) ::
    (List.range' 1 L).flatMap fun b =>
      (gForm 0 b, pl.getD (gForm 0 (laa.getD (b - 1) 0)) 0) ::
        (List.range' 1 b).map fun a =>
          (gForm a b, pl.getD (gForm (laa.getD (a - 1) 0) (laa.getD (b - 1) 0)) 0)

/-- One sample's LPL row: the scaffolded buffer of size `gForm L L + 1`
after all writes. -/
def localise_LPL_sample (L : Nat) (laa : List Nat) (pl : List Int) : List Int :=
  (List.range (gForm L L + 1)).map (applyWrites (fun _ => 0) (lplWrites L laa pl))

theorem flatMap_congr {l : List α} {p q : α → List β} (h : ∀ a ∈ l, p a = q a) :
    l.flatMap p = l.flatMap q := by
  induction l with
  | nil => rfl
  | cons x xs ih =>
    simp only [List.flatMap_cons]
    rw [h x (List.mem_cons_self _ _), ih fun a ha => h a (List.mem_cons_of_mem _ ha)]

theorem lplWrites_eq_triWrites (L : Nat) (laa : List Nat) (pl : List Int) :
    lplWrites L laa pl
      = triWrites L fun a b => pl.getD (gForm (locInd laa a) (locInd laa b)) 0 := by
  rw [triWrites, range_succ_cons, List.flatMap_cons, lplWrites]
  have h0 : (List.range 1).map
      (fun a => (gForm a 0, pl.getD (gForm (locInd laa a) (locInd laa 0)) 0))
      = [(0, pl.getD 0 0)] := by
    simp [List.range_succ, locInd, gForm]
  rw [h0]
  simp only [List.singleton_append, List.cons.injEq, true_and]
  refine flatMap_congr ?_
  intro b hb
  rw [List.mem_range'] at hb
  obtain ⟨i, _, rfl⟩ := hb
  rw [range_succ_cons, List.map_cons]
  have hb0 : locInd laa (1 + 1 * i) = laa.getD (1 + 1 * i - 1) 0 := by
    rw [locInd, if_neg (by omega)]
  rw [hb0]
  have hz : locInd laa 0 = 0 := rfl
  rw [hz]
  simp only [List.cons.injEq, true_and]
  refine List.map_congr_left ?_
  intro a ha
  rw [List.mem_range'] at ha
  obtain ⟨j, _, rfl⟩ := ha
  rw [locInd, if_neg (by omega)]

theorem localise_LPL_sample_length (L : Nat) (laa : List Nat) (pl : List Int) :
    (localise_LPL_sample L laa pl).length = gForm L L + 1 := by
  simp [localise_LPL_sample]

theorem localise_LPL_sample_getD (L : Nat) (laa : List Nat) (pl : List Int) {a b : Nat}
    (hab : a ≤ b) (hbL : b ≤ L) :
    (localise_LPL_sample L laa pl).getD (gForm a b) 0
      = pl.getD (gForm (locInd laa a) (locInd laa b)) 0 := by
  rw [localise_LPL_sample,
    getD_range_map _ (by have := gForm_le_self hab hbL; omega),
    lplWrites_eq_triWrites, applyWrites_triWrites _ _ hab hbL]

/-- `determine_laa`: check that every sample has a full diploid PL row,
then build the per-sample LAA rows. -/
def determine_laa (f : Int → ℚ) (L nAlts nSamples : Nat) (PLs : ConcatCol Int) :
    Except DError (List (List Nat)) :=
  if PLs.data.length ≠ nSamples * (gForm nAlts nAlts + 1) then
    .error .diploidOrCardinalityMismatch
  else .ok (PLs.rows.map fun row => determine_laa_sample f L nAlts row)

/-- The LAD block of `localise_alleles`: when AD is present as an integer
column, append the LAD field built from AD and the LAA rows. -/
def localise_build_LAD (genotypes : List (String × FmtValue)) (laa : List (List Nat)) :
    Except DError (List (String × FmtValue)) :=
  match genotypes.find? fun e => e.1 == "AD" with
  | none => .ok genotypes
  | some (_, .intCol w2 adc) =>
    .ok (genotypes ++ [("LAD", FmtValue.intCol w2
      (mkConcat ((adc.rows.zip laa).map fun p => localise_LAD_sample p.1 p.2)))])
  | some _ => .error .adTypeMismatch

/-- `localise_alleles` restricted to the genotype mapping it rewrites:
refuse pre-existing local fields, derive LAA from PL, build LAD from AD
(when AD is present) and LPL from PL, append the three new fields in that
order, and finally drop the global AD/PL fields unless they are kept.
Field lookup mirrors the id-keyed map the code builds (ids are unique in
valid VCF, so the first match is the match). -/
def localise_alleles (f : Int → ℚ) (L nAlts nSamples : Nat) (removeGlobals : Bool)
    (genotypes : List (String × FmtValue)) : Except DError (List (String × FmtValue)) :=
  if genotypes.any fun e => e.1 == "LAA" || e.1 == "LAD" || e.1 == "LGT" || e.1 == "LPL" then
    .error .fieldAlreadyPresent
  else
    match genotypes.find? fun e => e.1 == "PL" with
    | none => .error .missingPL
    | some (_, .intCol w plc) =>
      match determine_laa f L nAlts nSamples plc with
      | .error err => .error err
      | .ok laa =>
        match localise_build_LAD genotypes laa with
        | .error err => .error err
        | .ok genotypes1 =>
          let lplCol := mkConcat ((List.range nSamples).map fun i =>
            localise_LPL_sample L (laa.getD i []) (plc.row i))
          let genotypes2 := genotypes1 ++ [("LPL", FmtValue.intCol w lplCol)]
          let genotypes3 := genotypes2 ++ [("LAA", FmtValue.intCol .i32
            (mkConcat (laa.map fun r => r.map Int.ofNat)))]
          Except.ok (if removeGlobals then
              genotypes3.filter fun e => !(e.1 == "AD" || e.1 == "PL")
            else genotypes3)
    | some _ => .error .plWrongState

theorem rows_getD {α : Type} (c : ConcatCol α) {s : Nat} (h : s < c.delim.length - 1) :
    c.rows.getD s [] = c.row s := by
  rw [ConcatCol.rows, getD_range_map _ h]

theorem rows_length {α : Type} (c : ConcatCol α) : c.rows.length = c.delim.length - 1 := by
  simp [ConcatCol.rows]

theorem find?_eq_none_of_all_false {l : List (String × FmtValue)} {key : String}
    (h : ∀ e ∈ l, (e.1 == key) = false) : l.find? (fun e => e.1 == key) = none :=
  List.find?_eq_none.mpr fun x hx => by rw [h x hx]; exact Bool.false_ne_true

/-- C1: local-allele projection of a record with `n_alts > L`: for every
sample, the LAA row consists of exactly L strictly positive, strictly
ascending indexes in `[1, n_alts]` whose accumulated probability is at
least that of every allele left out; the LAD row is the REF depth
followed by the depths of the LAA alleles; and the LPL row has length
`gForm L L + 1` with `LPL[gForm a b] = PL[gForm α β]`, `α/β` the local
indexes mapped through LAA (`0 ↦ 0`). -/
theorem claim_C1_local_projection
    (f : Int → ℚ) (L nAlts nSamples : Nat) (removeGlobals : Bool)
    (genotypes : List (String × FmtValue)) (pkey akey : String) (w w2 : IntWidth)
    (plc adc : ConcatCol Int)
    (hLn : L < nAlts)
    (hno4 : (genotypes.any fun e =>
      e.1 == "LAA" || e.1 == "LAD" || e.1 == "LGT" || e.1 == "LPL") = false)
    (hPL : genotypes.find? (fun e => e.1 == "PL") = some (pkey, .intCol w plc))
    (hAD : genotypes.find? (fun e => e.1 == "AD") = some (akey, .intCol w2 adc))
    (hplDelim : plc.delim = scaffoldDelim nSamples (gForm nAlts nAlts + 1))
    (hplData : plc.data.length = nSamples * (gForm nAlts nAlts + 1))
    (hadDelim : adc.delim = scaffoldDelim nSamples (nAlts + 1)) :
    ∃ laa ladCol lplCol gl,
      determine_laa f L nAlts nSamples plc = .ok laa ∧
      laa.length = nSamples ∧
      localise_alleles f L nAlts nSamples removeGlobals genotypes = .ok gl ∧
      gl.find? (fun e => e.1 == "LAA")
        = some ("LAA", .intCol .i32 (mkConcat (laa.map fun r => r.map Int.ofNat))) ∧
      gl.find? (fun e => e.1 == "LAD") = some ("LAD", .intCol w2 ladCol) ∧
      gl.find? (fun e => e.1 == "LPL") = some ("LPL", .intCol w lplCol) ∧
      ∀ s, s < nSamples →
        (laa.getD s []).length = L ∧
        (laa.getD s []).Pairwise (· < ·) ∧
        (∀ x ∈ laa.getD s [], 1 ≤ x ∧ x ≤ nAlts) ∧
        (∀ x ∈ laa.getD s [], ∀ k, 1 ≤ k → k ≤ nAlts → k ∉ laa.getD s [] →
          accProb f nAlts (plc.row s) k ≤ accProb f nAlts (plc.row s) x) ∧
        (ladCol.row s).length = L + 1 ∧
        (ladCol.row s).getD 0 0 = (adc.row s).getD 0 0 ∧
        (∀ j, j < L → (ladCol.row s).getD (j + 1) 0
          = (adc.row s).getD ((laa.getD s []).getD j 0) 0) ∧
        (lplCol.row s).length = gForm L L + 1 ∧
        ∀ a b, a ≤ b → b ≤ L →
          (lplCol.row s).getD (gForm a b) 0
            = (plc.row s).getD (gForm (locInd (laa.getD s []) a)
                (locInd (laa.getD s []) b)) 0 := by
  obtain ⟨laa, hlaadef⟩ : ∃ laa,
      laa = plc.rows.map fun row => determine_laa_sample f L nAlts row := ⟨_, rfl⟩
  have hok : determine_laa f L nAlts nSamples plc = .ok laa := by
    rw [determine_laa, if_neg (by simp [hplData]), hlaadef]
  have hplrows : plc.rows.length = nSamples := by
    rw [rows_length, hplDelim]
    simp [scaffoldDelim]
  have hadrows : adc.rows.length = nSamples := by
    rw [rows_length, hadDelim]
    simp [scaffoldDelim]
  have hlaalen : laa.length = nSamples := by rw [hlaadef, List.length_map, hplrows]
  have hlaaget : ∀ s, s < nSamples →
      laa.getD s [] = determine_laa_sample f L nAlts (plc.row s) := by
    intro s hs
    have hs1 : s < (plc.rows.map fun row => determine_laa_sample f L nAlts row).length := by
      rw [List.length_map, hplrows]
      exact hs
    rw [hlaadef, List.getD_eq_getElem _ _ hs1, List.getElem_map]
    congr 1
    have hs2 : s < plc.rows.length := by rw [hplrows]; exact hs
    rw [← List.getD_eq_getElem plc.rows [] hs2]
    exact rows_getD plc (by rw [hplDelim]; simpa [scaffoldDelim] using hs)
  obtain ⟨ladCol, hladdef⟩ : ∃ ladCol,
      ladCol = mkConcat ((adc.rows.zip laa).map fun p => localise_LAD_sample p.1 p.2) :=
    ⟨_, rfl⟩
  have hziplen : (adc.rows.zip laa).length = nSamples := by
    rw [List.length_zip, hadrows, hlaalen]
    omega
  have hladrow : ∀ s, s < nSamples →
      ladCol.row s = localise_LAD_sample (adc.row s) (laa.getD s []) := by
    intro s hs
    have hs1 : s < ((adc.rows.zip laa).map fun p => localise_LAD_sample p.1 p.2).length := by
      rw [List.length_map, hziplen]
      exact hs
    have hs2 : s < (adc.rows.zip laa).length := by rw [hziplen]; exact hs
    rw [hladdef, mkConcat_row _ hs1, List.getD_eq_getElem _ _ hs1, List.getElem_map,
      List.getElem_zip]
    have hsa : s < adc.rows.length := by rw [hadrows]; exact hs
    have hsl : s < laa.length := by rw [hlaalen]; exact hs
    rw [← List.getD_eq_getElem adc.rows [] hsa, ← List.getD_eq_getElem laa [] hsl]
    rw [rows_getD adc (by rw [hadDelim]; simpa [scaffoldDelim] using hs)]
  obtain ⟨lplCol, hlpldef⟩ : ∃ lplCol,
      lplCol = mkConcat ((List.range nSamples).map fun i =>
        localise_LPL_sample L (laa.getD i []) (plc.row i)) := ⟨_, rfl⟩
  have hlplrow : ∀ s, s < nSamples →
      lplCol.row s = localise_LPL_sample L (laa.getD s []) (plc.row s) := by
    intro s hs
    have hs1 : s < ((List.range nSamples).map fun i =>
        localise_LPL_sample L (laa.getD i []) (plc.row i)).length := by
      rw [List.length_map, List.length_range]
      exact hs
    rw [hlpldef, mkConcat_row _ hs1, getD_range_map _ hs]
  have hLAD : localise_build_LAD genotypes laa
      = .ok (genotypes ++ [("LAD", FmtValue.intCol w2 ladCol)]) := by
    rw [localise_build_LAD, hAD, hladdef]
  obtain ⟨laaE, hlaaE⟩ : ∃ v, v = ("LAA",
      FmtValue.intCol .i32 (mkConcat (laa.map fun r => r.map Int.ofNat))) := ⟨_, rfl⟩
  obtain ⟨glBase, hglBase⟩ : ∃ gl, gl = ((genotypes ++ [("LAD", FmtValue.intCol w2 ladCol)])
      ++ [("LPL", FmtValue.intCol w lplCol)]) ++ [laaE] := ⟨_, rfl⟩
  obtain ⟨gl, hgldef⟩ : ∃ gl, gl = if removeGlobals then
      glBase.filter fun e => !(e.1 == "AD" || e.1 == "PL")
    else glBase := ⟨_, rfl⟩
  have hloc : localise_alleles f L nAlts nSamples removeGlobals genotypes = .ok gl := by
    rw [localise_alleles, if_neg (by rw [hno4]; exact Bool.false_ne_true), hPL]
    dsimp only
    rw [hok]
    dsimp only
    rw [hLAD]
    dsimp only
    rw [hgldef, hglBase, hlaaE, hlpldef]
  have hmem4 : ∀ e ∈ genotypes, (e.1 == "LAA") = false ∧ (e.1 == "LAD") = false ∧
      (e.1 == "LPL") = false := by
    intro e he
    have h := List.any_eq_false.mp hno4 e he
    simp only [Bool.or_eq_true, not_or, Bool.not_eq_true] at h
    exact ⟨h.1.1.1, h.1.1.2, h.2⟩
  have hfindBase : ∀ (key : String) (v : String × FmtValue),
      (∀ e ∈ genotypes, (e.1 == key) = false) →
      (("LAD" == key) = false ∨ ("LAD", FmtValue.intCol w2 ladCol) = v) →
      True → glBase.find? (fun e => e.1 == key) = some v → True := fun _ _ _ _ _ _ => trivial
  clear hfindBase
  have hgn : ∀ (key : String), (∀ e ∈ genotypes, (e.1 == key) = false) →
      ∀ q : String × FmtValue → Bool,
      (genotypes.filter q).find? (fun e => e.1 == key) = none := by
    intro key h q
    refine find?_eq_none_of_all_false ?_
    intro e he
    exact h e (List.mem_of_mem_filter he)
  have hfindLAA : gl.find? (fun e => e.1 == "LAA") = some laaE := by
    rw [hgldef]
    have hbase : glBase.find? (fun e => e.1 == "LAA") = some laaE := by
      rw [hglBase]
      rw [List.find?_append, List.find?_append, List.find?_append]
      rw [find?_eq_none_of_all_false fun e he => (hmem4 e he).1]
      have h1 : (("LAD" : String) == "LAA") = false := by decide
      have h2 : (("LPL" : String) == "LAA") = false := by decide
      have h3 : (("LAA" : String) == "LAA") = true := by decide
      simp [List.find?_cons, h1, h2, h3, hlaaE]
    cases removeGlobals with
    | false => simpa using hbase
    | true =>
      rw [if_pos rfl]
      rw [hglBase] at hbase ⊢
      rw [List.filter_append, List.filter_append, List.filter_append]
      rw [List.find?_append, List.find?_append, List.find?_append]
      rw [hgn "LAA" (fun e he => (hmem4 e he).1) _]
      have h1 : (("LAD" : String) == "LAA") = false := by decide
      have h2 : (("LPL" : String) == "LAA") = false := by decide
      have h3 : (("LAA" : String) == "LAA") = true := by decide
      have q1 : (!(("LAD" : String) == "AD" || ("LAD" : String) == "PL")) = true := by decide
      have q2 : (!(("LPL" : String) == "AD" || ("LPL" : String) == "PL")) = true := by decide
      have q3 : (!(("LAA" : String) == "AD" || ("LAA" : String) == "PL")) = true := by decide
      simp [List.filter_cons, q1, q2, q3, hlaaE, List.find?_cons, h1, h2, h3]
  have hfindLAD : gl.find? (fun e => e.1 == "LAD")
      = some ("LAD", FmtValue.intCol w2 ladCol) := by
    rw [hgldef]
    have h3 : (("LAD" : String) == "LAD") = true := by decide
    cases removeGlobals with
    | false =>
      rw [if_neg Bool.false_ne_true]
      rw [hglBase, List.find?_append, List.find?_append, List.find?_append]
      rw [find?_eq_none_of_all_false fun e he => (hmem4 e he).2.1]
      simp [List.find?_cons, h3]
    | true =>
      rw [if_pos rfl]
      rw [hglBase, List.filter_append, List.filter_append, List.filter_append]
      rw [List.find?_append, List.find?_append, List.find?_append]
      rw [hgn "LAD" (fun e he => (hmem4 e he).2.1) _]
      have q1 : (!(("LAD" : String) == "AD" || ("LAD" : String) == "PL")) = true := by decide
      simp [List.filter_cons, q1, List.find?_cons, h3]
  have hfindLPL : gl.find? (fun e => e.1 == "LPL")
      = some ("LPL", FmtValue.intCol w lplCol) := by
    rw [hgldef]
    have h2 : (("LAD" : String) == "LPL") = false := by decide
    have h3 : (("LPL" : String) == "LPL") = true := by decide
    cases removeGlobals with
    | false =>
      rw [if_neg Bool.false_ne_true]
      rw [hglBase, List.find?_append, List.find?_append, List.find?_append]
      rw [find?_eq_none_of_all_false fun e he => (hmem4 e he).2.2]
      simp [List.find?_cons, h2, h3]
    | true =>
      rw [if_pos rfl]
      rw [hglBase, List.filter_append, List.filter_append, List.filter_append]
      rw [List.find?_append, List.find?_append, List.find?_append]
      rw [hgn "LPL" (fun e he => (hmem4 e he).2.2) _]
      have q1 : (!(("LAD" : String) == "AD" || ("LAD" : String) == "PL")) = true := by decide
      have q2 : (!(("LPL" : String) == "AD" || ("LPL" : String) == "PL")) = true := by decide
      simp [List.filter_cons, q1, q2, List.find?_cons, h2, h3]
  refine ⟨laa, ladCol, lplCol, gl, hok, hlaalen, hloc, hlaaE ▸ hfindLAA, hfindLAD, hfindLPL, ?_⟩
  intro s hs
  have hrow := hlaaget s hs
  have hspec := determine_laa_sample_spec f L nAlts (plc.row s) (le_of_lt hLn)
  rw [← hrow] at hspec
  obtain ⟨hlen, hpw, hbnd, hmax⟩ := hspec
  refine ⟨hlen, hpw, hbnd, hmax, ?_, ?_, ?_, ?_, ?_⟩
  · rw [hladrow s hs, localise_LAD_sample_length, hlen]
  · rw [hladrow s hs, localise_LAD_sample_zero]
  · intro j hj
    rw [hladrow s hs, localise_LAD_sample_succ _ _ (by rw [hlen]; exact hj)]
  · rw [hlplrow s hs, localise_LPL_sample_length]
  · intro a b hab hbL
    rw [hlplrow s hs, localise_LPL_sample_getD _ _ _ hab hbL]

/-- A stand-in for `PL_to_prob` used to instantiate C1 (any function
works; this one is antitone like `10^(-PL/10)`). -/
def probFnC1 : Int → ℚ := fun z => -z

/-- The PL column used to instantiate C1: one sample, three alleles. -/
def plcC1 : ConcatCol Int := ⟨[0, 20, 40, 35, 60, 80], [0, 6]⟩

/-- The AD column used to instantiate C1. -/
def adcC1 : ConcatCol Int := ⟨[10, 3, 7], [0, 3]⟩

/-- The genotype mapping used to instantiate C1. -/
def genC1 : List (String × FmtValue) :=
  [("GT", .strVec ["0/1"]), ("AD", .intCol .i32 adcC1), ("PL", .intCol .i32 plcC1)]

theorem claim_C1_witness :
    ∃ laa ladCol lplCol gl,
      determine_laa probFnC1 1 2 1 plcC1 = .ok laa ∧
      laa.length = 1 ∧
      localise_alleles probFnC1 1 2 1 true genC1 = .ok gl ∧
      gl.find? (fun e => e.1 == "LAA")
        = some ("LAA", .intCol .i32 (mkConcat (laa.map fun r => r.map Int.ofNat))) ∧
      gl.find? (fun e => e.1 == "LAD") = some ("LAD", .intCol .i32 ladCol) ∧
      gl.find? (fun e => e.1 == "LPL") = some ("LPL", .intCol .i32 lplCol) ∧
      ∀ s, s < 1 →
        (laa.getD s []).length = 1 ∧
        (laa.getD s []).Pairwise (· < ·) ∧
        (∀ x ∈ laa.getD s [], 1 ≤ x ∧ x ≤ 2) ∧
        (∀ x ∈ laa.getD s [], ∀ k, 1 ≤ k → k ≤ 2 → k ∉ laa.getD s [] →
          accProb probFnC1 2 (plcC1.row s) k ≤ accProb probFnC1 2 (plcC1.row s) x) ∧
        (ladCol.row s).length = 1 + 1 ∧
        (ladCol.row s).getD 0 0 = (adcC1.row s).getD 0 0 ∧
        (∀ j, j < 1 → (ladCol.row s).getD (j + 1) 0
          = (adcC1.row s).getD ((laa.getD s []).getD j 0) 0) ∧
        (lplCol.row s).length = gForm 1 1 + 1 ∧
        ∀ a b, a ≤ b → b ≤ 1 →
          (lplCol.row s).getD (gForm a b) 0
            = (plcC1.row s).getD (gForm (locInd (laa.getD s []) a)
                (locInd (laa.getD s []) b)) 0 :=
  claim_C1_local_projection probFnC1 1 2 1 true genC1 "PL" "AD" .i32 .i32 plcC1 adcC1
    (by decide) (by decide) rfl rfl (by decide) (by decide) (by decide)

/-- Options of the `binalleles` subcommand. -/
structure BinOpts where
  bin_by_length : Bool
  same_length_splits : Bool
deriving DecidableEq, Repr

/-- `operator<` on `std::pair<size_t, size_t>`: lexicographic order used
by the `allele_lengths` sort. -/
def lexLe : (Nat × Nat) → (Nat × Nat) → Prop :=
  fun x y => x.1 < y.1 ∨ (x.1 = y.1 ∧ x.2 ≤ y.2)

instance : DecidableRel lexLe :=
  fun a b => (inferInstance : Decidable (a.1 < b.1 ∨ (a.1 = b.1 ∧ a.2 ≤ b.2)))

instance : IsTotal (Nat × Nat) lexLe := ⟨fun a b => by rw [lexLe, lexLe]; omega⟩

instance : IsTrans (Nat × Nat) lexLe := ⟨fun a b c h1 h2 => by
  rw [lexLe] at h1 h2 ⊢
  omega⟩

/-- `establish_PLs`: reuse the variant's column when it already holds the
input's integer width, otherwise replace it with a fresh 3-wide scaffold.
Returns the column the sample loop writes into and the new variant
value. -/
def establish_PLs (w : IntWidth) (nSamples : Nat) (v : FmtValue) : ConcatCol Int × FmtValue :=
  match v with
  | .intCol w' c =>
    if w' = w then (c, v)
    else (concatScaffold nSamples 3 (0 : Int), .intCol w (concatScaffold nSamples 3 (0 : Int)))
  | _ => (concatScaffold nSamples 3 (0 : Int), .intCol w (concatScaffold nSamples 3 (0 : Int)))

/-- The candidate values visited by one double loop
`for b in bs: for a in as: if a <= b: min(..., in_PL[gForm a b])`. -/
def pairCands (inPL : List Int) (bs as : List Nat) : List Int :=
  bs.flatMap fun b => as.filterMap fun a =>
    if a ≤ b then some (inPL.getD (gForm a b) 0) else none

/-- One sample's output PL row: minima over REFBIN pairs, cross pairs and
ALTBIN pairs, each fold starting at `numeric_limits<int_t>::max()` (the
cross value continues the fold over the second orientation). -/
def binOutPL (w : IntWidth) (inPL : List Int) (refbin altbin : List Nat) : List Int :=
  [(pairCands inPL refbin refbin).foldl min (intMax w),
    (pairCands inPL altbin refbin).foldl min
      ((pairCands inPL refbin altbin).foldl min (intMax w)),
    (pairCands inPL altbin altbin).foldl min (intMax w)]

/-- The GT switch on the index of `min_element(out_PL)`. -/
def binGT (outPL : List Int) : String :=
  match argminIdx outPL with
  | 0 => "0/0"
  | 1 => "0/1"
  | _ => "1/1"

/-- The cut-point loop of `bin_by_length_fn`, threading the reused output
record `new_rec`.  Every iteration first writes `REFBIN_MAXLEN` and
`ALTBIN_MINLEN` (info positions 0 and 1), skips same-length cuts unless
enabled, assigns the suffixed id only for a non-"." input id, fills the
bin index vectors (info positions 2 and 3), and rewrites GT and PL
(genotype positions 0 and 1) through the established output column.  The
out-of-bounds span writes the C++ would perform when the structural
expectations on `new_rec` fail are modelled by `undefinedAccess`. -/
def binLoop (opts : BinOpts) (nSamples : Nat) (recId : String) (nAlts : Nat)
    (lengths_v indexes_v : List Nat) (plField : FmtValue) :
    List Nat → Record → Except DError (Record × List Record)
  | [], st => .ok (st, [])
  | i :: rest, st =>
    let refbinMax := lengths_v.getD i 0
    let altbinMin := lengths_v.getD (i + 1) 0
    let st1 := { st with info := setFieldValue (setFieldValue st.info 0
      (.intScalar (Int.ofNat refbinMax))) 1 (.intScalar (Int.ofNat altbinMin)) }
    if refbinMax = altbinMin ∧ opts.same_length_splits = false then
      binLoop opts nSamples recId nAlts lengths_v indexes_v plField rest st1
    else
      let st2 := { st1 with
        id := if recId ≠ "." then recId ++ "_div_" ++ toString i else st1.id }
      let refbin := indexes_v.take (i + 1)
      let altbin := indexes_v.drop (i + 1)
      let st3 := { st2 with info := setFieldValue (setFieldValue st2.info 2
        (.intVec .i16 (refbin.map Int.ofNat))) 3 (.intVec .i16 (altbin.map Int.ofNat)) }
      match plField with
      | .intCol w inPLs =>
        if inPLs.data.length ≠ nSamples * (gForm nAlts nAlts + 1) then
          .error .diploidOrCardinalityMismatch
        else
          match st3.genotypes with
          | [(gtKey, .strVec gts0), (plKey, plv)] =>
            let outCol0 := (establish_PLs w nSamples plv).1
            if outCol0.delim = scaffoldDelim nSamples 3 ∧ outCol0.data.length = nSamples * 3 then
              let newGTs := gts0.mapIdx fun j s =>
                if j < nSamples then binGT (binOutPL w (inPLs.row j) refbin altbin) else s
              let newPL := mkConcat ((List.range nSamples).map fun j =>
                binOutPL w (inPLs.row j) refbin altbin)
              let st4 := { st3 with genotypes := [(gtKey, .strVec newGTs),
                (plKey, .intCol w newPL)] }
              match binLoop opts nSamples recId nAlts lengths_v indexes_v plField rest st4 with
              | .error e => .error e
              | .ok (st5, recs) => .ok (st5, st4 :: recs)
            else .error .undefinedAccess
          | _ => .error .undefinedAccess
      | _ => .error .plWrongState

/-- The `bin_by_length_fn` step of `binalleles.cpp` on one input record:
pass through records with at most one ALT, with binning disabled, or
without a PL field; otherwise sort the allele lengths and run the cut
loop. -/
def bin_by_length_fn (opts : BinOpts) (nSamples : Nat) (st : Record) (record : Record) :
    Except DError (Record × List Record) :=
  if record.alt.length ≤ 1 ∨ opts.bin_by_length = false then .ok (st, [record])
  else if (record.genotypes.any fun e => e.1 == "PL") = false then .ok (st, [record])
  else
    match record.genotypes.find? fun e => e.1 == "PL" with
    | none => .ok (st, [record])
    | some (_, plField) =>
      let allele_lengths := List.insertionSort lexLe
        ((record.ref.length, 0) :: (record.alt.enum.map fun p => (p.2.length, p.1 + 1)))
      let lengths_v := allele_lengths.map Prod.fst
      let indexes_v := allele_lengths.map Prod.snd
      let st0 := { st with chrom := record.chrom, pos := record.pos }
      binLoop opts nSamples record.id record.alt.length lengths_v indexes_v plField
        (List.range record.alt.length) st0

/-- The out-column shape that makes the span writes of the sample loop
well defined: the established column must have the 3-wide scaffold form. -/
def establishOk (w : IntWidth) (nS : Nat) (v : FmtValue) : Prop :=
  (establish_PLs w nS v).1.delim = scaffoldDelim nS 3 ∧
    (establish_PLs w nS v).1.data.length = nS * 3

instance (w : IntWidth) (nS : Nat) (v : FmtValue) : Decidable (establishOk w nS v) :=
  inferInstanceAs (Decidable (_ ∧ _))

theorem intMax_nonneg (w : IntWidth) : 0 ≤ intMax w := by cases w <;> decide

theorem mkConcat_delim_const {α : Type} {rows : List (List α)} {c : Nat}
    (h : ∀ r ∈ rows, r.length = c) :
    (mkConcat rows).delim = scaffoldDelim rows.length c := by
  rw [mkConcat, scaffoldDelim]
  refine List.map_congr_left ?_
  intro i hi
  rw [List.mem_range] at hi
  have hrep : (rows.take i).map List.length
      = List.replicate ((rows.take i).map List.length).length c :=
    List.eq_replicate_of_mem fun b hb => by
      obtain ⟨r, hr, rfl⟩ := List.mem_map.mp hb
      exact h r (List.mem_of_mem_take hr)
  rw [hrep, List.sum_replicate, smul_eq_mul]
  simp only [List.length_replicate, List.length_map, List.length_take]
  have hmin : min i rows.length = i := by omega
  rw [hmin]

theorem mkConcat_data_const {α : Type} {rows : List (List α)} {c : Nat}
    (h : ∀ r ∈ rows, r.length = c) :
    (mkConcat rows).data.length = rows.length * c := by
  rw [mkConcat]
  simp only [List.length_flatten]
  have hrep : rows.map List.length = List.replicate (rows.map List.length).length c :=
    List.eq_replicate_of_mem fun b hb => by
      obtain ⟨r, hr, rfl⟩ := List.mem_map.mp hb
      exact h r hr
  rw [hrep, List.sum_replicate, smul_eq_mul]
  simp only [List.length_replicate, List.length_map]

theorem row_getD_le {c : ConcatCol Int} {w : IntWidth}
    (hval : ∀ x ∈ c.data, x ≤ intMax w) (j idx : Nat) :
    (c.row j).getD idx 0 ≤ intMax w := by
  by_cases hidx : idx < (c.row j).length
  · rw [List.getD_eq_getElem _ _ hidx]
    refine hval _ ?_
    have hmem : (c.row j)[idx] ∈ c.row j := List.getElem_mem _
    exact List.mem_of_mem_take (List.mem_of_mem_drop (by
      simpa [ConcatCol.row] using hmem))
  · rw [List.getD_eq_default _ _ (by omega)]
    exact intMax_nonneg w

theorem foldl_min_eq_minOfList {l : List Int} {init : Int} (hne : l ≠ [])
    (hle : ∀ x ∈ l, x ≤ init) : l.foldl min init = minOfList l := by
  match l with
  | [] => exact absurd rfl hne
  | x :: xs =>
    simp only [List.foldl_cons]
    rw [min_eq_right (hle x (List.mem_cons_self _ _))]
    rfl

theorem mem_pairCands {inPL : List Int} {bs as : List Nat} {v : Int} :
    v ∈ pairCands inPL bs as
      ↔ ∃ b ∈ bs, ∃ a ∈ as, a ≤ b ∧ v = inPL.getD (gForm a b) 0 := by
  rw [pairCands, List.mem_flatMap]
  constructor
  · rintro ⟨b, hb, hv⟩
    obtain ⟨a, ha, hfa⟩ := List.mem_filterMap.mp hv
    by_cases hab : a ≤ b
    · rw [if_pos hab, Option.some.injEq] at hfa
      exact ⟨b, hb, a, ha, hab, hfa.symm⟩
    · rw [if_neg hab] at hfa
      exact absurd hfa (by simp)
  · rintro ⟨b, hb, a, ha, hab, rfl⟩
    exact ⟨b, hb, List.mem_filterMap.mpr ⟨a, ha, by rw [if_pos hab]⟩⟩

/-- Specification form of "minimum over unordered pairs with both
endpoints in the bin". -/
def IsMinOverPairs (v : Int) (inPL : List Int) (bs : List Nat) : Prop :=
  (∃ a ∈ bs, ∃ b ∈ bs, a ≤ b ∧ v = inPL.getD (gForm a b) 0) ∧
    ∀ a ∈ bs, ∀ b ∈ bs, a ≤ b → v ≤ inPL.getD (gForm a b) 0

/-- Specification form of "minimum over pairs with one endpoint in each
bin". -/
def IsMinOverCross (v : Int) (inPL : List Int) (rb ab : List Nat) : Prop :=
  (∃ x ∈ rb, ∃ y ∈ ab, v = inPL.getD (gForm (min x y) (max x y)) 0) ∧
    ∀ x ∈ rb, ∀ y ∈ ab, v ≤ inPL.getD (gForm (min x y) (max x y)) 0

theorem binOutPL_char (w : IntWidth) (inPL : List Int) (refbin altbin : List Nat)
    (hrb : refbin ≠ []) (hab : altbin ≠ [])
    (hbound : ∀ idx : Nat, inPL.getD idx 0 ≤ intMax w) :
    (binOutPL w inPL refbin altbin).length = 3 ∧
    IsMinOverPairs ((binOutPL w inPL refbin altbin).getD 0 0) inPL refbin ∧
    IsMinOverCross ((binOutPL w inPL refbin altbin).getD 1 0) inPL refbin altbin ∧
    IsMinOverPairs ((binOutPL w inPL refbin altbin).getD 2 0) inPL altbin := by
  have hcands_le : ∀ bs as : List Nat, ∀ x ∈ pairCands inPL bs as, x ≤ intMax w := by
    intro bs as x hx
    obtain ⟨b, _, a, _, _, rfl⟩ := mem_pairCands.mp hx
    exact hbound _
  have hpairs : ∀ bs : List Nat, bs ≠ [] →
      IsMinOverPairs ((pairCands inPL bs bs).foldl min (intMax w)) inPL bs := by
    intro bs hbs
    obtain ⟨b0, hb0⟩ := List.exists_mem_of_ne_nil bs hbs
    have hne : pairCands inPL bs bs ≠ [] :=
      List.ne_nil_of_mem (mem_pairCands.mpr ⟨b0, hb0, b0, hb0, le_refl _, rfl⟩)
    rw [foldl_min_eq_minOfList hne (hcands_le bs bs)]
    constructor
    · obtain ⟨b, hb, a, ha, hab2, hv⟩ := mem_pairCands.mp (minOfList_mem hne)
      exact ⟨a, ha, b, hb, hab2, hv⟩
    · intro a ha b hb hab2
      exact minOfList_le (mem_pairCands.mpr ⟨b, hb, a, ha, hab2, rfl⟩)
  have hcross : IsMinOverCross
      ((pairCands inPL altbin refbin).foldl min
        ((pairCands inPL refbin altbin).foldl min (intMax w))) inPL refbin altbin := by
    rw [← List.foldl_append]
    obtain ⟨x0, hx0⟩ := List.exists_mem_of_ne_nil refbin hrb
    obtain ⟨y0, hy0⟩ := List.exists_mem_of_ne_nil altbin hab
    have hmem_of : ∀ x ∈ refbin, ∀ y ∈ altbin,
        inPL.getD (gForm (min x y) (max x y)) 0
          ∈ pairCands inPL refbin altbin ++ pairCands inPL altbin refbin := by
      intro x hx y hy
      rcases Nat.le_total y x with hyx | hxy
      · refine List.mem_append.mpr (Or.inl (mem_pairCands.mpr ⟨x, hx, y, hy, hyx, ?_⟩))
        congr 2 <;> omega
      · refine List.mem_append.mpr (Or.inr (mem_pairCands.mpr ⟨y, hy, x, hx, hxy, ?_⟩))
        congr 2 <;> omega
    have hne : pairCands inPL refbin altbin ++ pairCands inPL altbin refbin ≠ [] :=
      List.ne_nil_of_mem (hmem_of x0 hx0 y0 hy0)
    have hle : ∀ v ∈ pairCands inPL refbin altbin ++ pairCands inPL altbin refbin,
        v ≤ intMax w := by
      intro v hv
      rcases List.mem_append.mp hv with hv | hv
      · exact hcands_le _ _ _ hv
      · exact hcands_le _ _ _ hv
    rw [foldl_min_eq_minOfList hne hle]
    constructor
    · have hm := minOfList_mem hne
      rcases List.mem_append.mp hm with hv | hv
      · obtain ⟨b, hb, a, ha, hab2, hv2⟩ := mem_pairCands.mp hv
        refine ⟨b, hb, a, ha, ?_⟩
        rw [hv2]
        congr 2 <;> omega
      · obtain ⟨b, hb, a, ha, hab2, hv2⟩ := mem_pairCands.mp hv
        refine ⟨a, ha, b, hb, ?_⟩
        rw [hv2]
        congr 2 <;> omega
    · intro x hx y hy
      exact minOfList_le (hmem_of x hx y hy)
  exact ⟨rfl, hpairs refbin hrb, hcross, hpairs altbin hab⟩

theorem binGT_char (outPL : List Int) (h3 : outPL.length = 3) :
    ∃ k, IsFirstMinIdx outPL k ∧ binGT outPL = (["0/0", "0/1", "1/1"]).getD k "" := by
  have hne : outPL ≠ [] := by
    intro hc
    rw [hc] at h3
    simp at h3
  have hspec := argminIdx_spec hne
  refine ⟨argminIdx outPL, hspec, ?_⟩
  have hk3 : argminIdx outPL < 3 := by
    have := hspec.1
    omega
  rw [binGT]
  match hm : argminIdx outPL with
  | 0 => rfl
  | 1 => rfl
  | 2 => rfl
  | n + 3 => rw [hm] at hk3; omega

theorem binLoop_id_dot (opts : BinOpts) (nSamples nAlts : Nat)
    (lengths_v indexes_v : List Nat) (plField : FmtValue) :
    ∀ (cuts : List Nat) (st st' : Record) (recs : List Record),
      binLoop opts nSamples "." nAlts lengths_v indexes_v plField cuts st = .ok (st', recs) →
      st'.id = st.id ∧ ∀ e ∈ recs, e.id = st.id := by
  intro cuts
  induction cuts with
  | nil =>
    intro st st' recs h
    rw [binLoop] at h
    simp only [Except.ok.injEq, Prod.mk.injEq] at h
    exact ⟨by rw [← h.1], by rw [← h.2]; simp⟩
  | cons i rest ih =>
    intro st st' recs h
    rw [binLoop] at h
    dsimp only at h
    split at h
    · obtain ⟨h1, h2⟩ := ih _ _ _ h
      exact ⟨h1, h2⟩
    · split at h
      · split at h
        · exact Except.noConfusion h
        · split at h
          · split at h
            · split at h
              · exact Except.noConfusion h
              · rename_i st5 recs2 _heq
                simp only [Except.ok.injEq, Prod.mk.injEq] at h
                obtain ⟨hst, hrecs⟩ := h
                obtain ⟨h1, h2⟩ := ih _ _ _ (by assumption)
                have hid4 : (if ("." : String) ≠ "." then "." ++ "_div_" ++ toString i
                    else st.id) = st.id := by
                  rw [if_neg (by intro hc; exact hc rfl)]
                constructor
                · rw [← hst]
                  rw [h1]
                  exact hid4
                · intro e he
                  rw [← hrecs] at he
                  rcases List.mem_cons.mp he with rfl | he2
                  · exact hid4
                  · rw [h2 e he2]
                    exact hid4
            · exact Except.noConfusion h
          · exact Except.noConfusion h
      · exact Except.noConfusion h

theorem binLoop_id_nondot (opts : BinOpts) (nSamples nAlts : Nat)
    (lengths_v indexes_v : List Nat) (plField : FmtValue) (recId : String)
    (hdot : recId ≠ ".") :
    ∀ (cuts : List Nat) (st st' : Record) (recs : List Record),
      binLoop opts nSamples recId nAlts lengths_v indexes_v plField cuts st = .ok (st', recs) →
      (∀ e ∈ recs, ∃ i : Nat, e.id = recId ++ "_div_" ++ toString i) ∧
      (recs = [] → st'.id = st.id) ∧
      (recs ≠ [] → ∃ i : Nat, st'.id = recId ++ "_div_" ++ toString i) := by
  intro cuts
  induction cuts with
  | nil =>
    intro st st' recs h
    rw [binLoop] at h
    simp only [Except.ok.injEq, Prod.mk.injEq] at h
    refine ⟨by rw [← h.2]; simp, fun _ => by rw [← h.1], fun hne => ?_⟩
    exact absurd h.2.symm hne
  | cons i rest ih =>
    intro st st' recs h
    rw [binLoop] at h
    dsimp only at h
    rw [if_pos hdot] at h
    split at h
    · obtain ⟨h1, h2, h3⟩ := ih _ _ _ h
      exact ⟨h1, h2, h3⟩
    · split at h
      · split at h
        · exact Except.noConfusion h
        · split at h
          · split at h
            · split at h
              · exact Except.noConfusion h
              · rename_i st5 recs2 _heq
                simp only [Except.ok.injEq, Prod.mk.injEq] at h
                obtain ⟨hst, hrecs⟩ := h
                obtain ⟨h1, h2, h3⟩ := ih _ _ _ (by assumption)
                refine ⟨?_, ?_, ?_⟩
                · intro e he
                  rw [← hrecs] at he
                  rcases List.mem_cons.mp he with rfl | he2
                  · exact ⟨i, rfl⟩
                  · exact h1 e he2
                · intro hne
                  rw [← hrecs] at hne
                  exact absurd hne (by simp)
                · intro _
                  rcases List.eq_nil_or_concat recs2 with hr2 | hcat
                  · refine ⟨i, ?_⟩
                    rw [← hst, h2 hr2]
                  · obtain ⟨j, hj⟩ := h3 (by
                      obtain ⟨l2, b2, rfl⟩ := hcat
                      simp)
                    exact ⟨j, by rw [← hst]; exact hj⟩
            · exact Except.noConfusion h
          · exact Except.noConfusion h
      · exact Except.noConfusion h

theorem establish_PLs_intCol (w : IntWidth) (nS : Nat) (c : ConcatCol Int) :
    establish_PLs w nS (.intCol w c) = (c, .intCol w c) := by
  simp [establish_PLs]

theorem establishOk_intCol (w : IntWidth) (nS : Nat) (c : ConcatCol Int)
    (h1 : c.delim = scaffoldDelim nS 3) (h2 : c.data.length = nS * 3) :
    establishOk w nS (.intCol w c) :=
  ⟨by rw [establish_PLs_intCol]; exact h1, by rw [establish_PLs_intCol]; exact h2⟩

/-- What C5 asserts of one emitted biallelic record: its REFBIN/ALTBIN
index vectors (info positions 2 and 3) describe nonempty bins, its PL
rows have exactly three entries holding the three minima over the bins,
and its GT entries follow the first minimum of the row. -/
def BinRecProp (w : IntWidth) (nSamples : Nat) (inPLs : ConcatCol Int) (e : Record) : Prop :=
  ∃ refbin altbin : List Nat, refbin ≠ [] ∧ altbin ≠ [] ∧
    (e.info.getD 2 ("", .flag)).2 = .intVec .i16 (refbin.map Int.ofNat) ∧
    (e.info.getD 3 ("", .flag)).2 = .intVec .i16 (altbin.map Int.ofNat) ∧
    ∃ gts newPL,
      (e.genotypes.getD 0 ("", .strVec [])).2 = .strVec gts ∧
      (e.genotypes.getD 1 ("", .strVec [])).2 = .intCol w newPL ∧
      gts.length = nSamples ∧
      ∀ j, j < nSamples →
        (newPL.row j).length = 3 ∧
        IsMinOverPairs ((newPL.row j).getD 0 0) (inPLs.row j) refbin ∧
        IsMinOverCross ((newPL.row j).getD 1 0) (inPLs.row j) refbin altbin ∧
        IsMinOverPairs ((newPL.row j).getD 2 0) (inPLs.row j) altbin ∧
        ∃ k, IsFirstMinIdx (newPL.row j) k ∧
          gts.getD j "" = (["0/0", "0/1", "1/1"]).getD k ""

theorem binLoop_emits (opts : BinOpts) (nSamples : Nat) (recId : String) (nAlts : Nat)
    (lengths_v indexes_v : List Nat) (w : IntWidth) (inPLs : ConcatCol Int)
    (hidxlen : indexes_v.length = nAlts + 1)
    (hbound : ∀ x ∈ inPLs.data, x ≤ intMax w) :
    ∀ (cuts : List Nat) (st st' : Record) (recs : List Record),
      (∀ i ∈ cuts, i < nAlts) →
      4 ≤ st.info.length →
      (∃ k0 g0 k1 pv, st.genotypes = [(k0, FmtValue.strVec g0), (k1, pv)] ∧
        g0.length = nSamples ∧ establishOk w nSamples pv) →
      binLoop opts nSamples recId nAlts lengths_v indexes_v (.intCol w inPLs) cuts st
        = .ok (st', recs) →
      ∀ e ∈ recs, BinRecProp w nSamples inPLs e := by
  intro cuts
  induction cuts with
  | nil =>
    intro st st' recs _ _ _ h
    rw [binLoop] at h
    simp only [Except.ok.injEq, Prod.mk.injEq] at h
    intro e he
    rw [← h.2] at he
    simp at he
  | cons i rest ih =>
    intro st st' recs hcuts hinfo hshape h
    obtain ⟨k0, g0, k1, pv, hgen, hg0len, hest⟩ := hshape
    have hi : i < nAlts := hcuts i (List.mem_cons_self _ _)
    rw [binLoop] at h
    dsimp only at h
    rw [hgen] at h
    split at h
    · refine ih _ _ _ (fun j hj => hcuts j (List.mem_cons_of_mem _ hj)) ?_ ?_ h
      · simpa [setFieldValue_length] using hinfo
      · exact ⟨k0, g0, k1, pv, rfl, hg0len, hest⟩
    · split at h
      · exact Except.noConfusion h
      · rename_i hPLlen
        dsimp only at h
        rw [if_pos (And.intro hest.1 hest.2)] at h
        split at h
        · exact Except.noConfusion h
        · rename_i st5 recs2 heq
          simp only [Except.ok.injEq, Prod.mk.injEq] at h
          obtain ⟨hst, hrecs⟩ := h
          have hrb_ne : indexes_v.take (i + 1) ≠ [] := by
            have : (indexes_v.take (i + 1)).length = i + 1 := by
              rw [List.length_take]
              omega
            intro hc
            rw [hc] at this
            simp at this
          have hab_ne : indexes_v.drop (i + 1) ≠ [] := by
            have : (indexes_v.drop (i + 1)).length = nAlts - i := by
              rw [List.length_drop]
              omega
            intro hc
            rw [hc] at this
            simp at this
            omega
          have hrowlen : ((List.range nSamples).map fun j =>
              binOutPL w (inPLs.row j) (indexes_v.take (i + 1))
                (indexes_v.drop (i + 1))).length = nSamples := by
            simp
          have hprop : BinRecProp w nSamples inPLs
              ({ st with
                id := if recId ≠ "." then recId ++ "_div_" ++ toString i else st.id,
                info := setFieldValue (setFieldValue (setFieldValue (setFieldValue st.info 0
                  (.intScalar (Int.ofNat (lengths_v.getD i 0)))) 1
                  (.intScalar (Int.ofNat (lengths_v.getD (i + 1) 0)))) 2
                  (.intVec .i16 ((indexes_v.take (i + 1)).map Int.ofNat))) 3
                  (.intVec .i16 ((indexes_v.drop (i + 1)).map Int.ofNat)),
                genotypes := [(k0, FmtValue.strVec (g0.mapIdx fun j s =>
                    if j < nSamples then binGT (binOutPL w (inPLs.row j)
                      (indexes_v.take (i + 1)) (indexes_v.drop (i + 1))) else s)),
                  (k1, FmtValue.intCol w (mkConcat ((List.range nSamples).map fun j =>
                    binOutPL w (inPLs.row j) (indexes_v.take (i + 1))
                      (indexes_v.drop (i + 1)))))] } : Record) := by
            refine ⟨indexes_v.take (i + 1), indexes_v.drop (i + 1), hrb_ne, hab_ne, ?_, ?_,
              ?_⟩
            · show ((setFieldValue (setFieldValue
                (setFieldValue (setFieldValue st.info 0 _) 1 _) 2 _) 3 _).getD 2 _).2 = _
              rw [setFieldValue_getD_ne _ 3 2 (by omega),
                setFieldValue_getD_self _ 2 (by simp only [setFieldValue_length]; omega)]
            · show ((setFieldValue (setFieldValue
                (setFieldValue (setFieldValue st.info 0 _) 1 _) 2 _) 3 _).getD 3 _).2 = _
              rw [setFieldValue_getD_self _ 3 (by simp only [setFieldValue_length]; omega)]
            refine ⟨g0.mapIdx fun j s =>
                if j < nSamples then binGT (binOutPL w (inPLs.row j)
                  (indexes_v.take (i + 1)) (indexes_v.drop (i + 1))) else s,
              mkConcat ((List.range nSamples).map fun j =>
                binOutPL w (inPLs.row j) (indexes_v.take (i + 1)) (indexes_v.drop (i + 1))),
              rfl, rfl, by rw [List.length_mapIdx]; exact hg0len, ?_⟩
            intro j hj
            have hrow : (mkConcat ((List.range nSamples).map fun j =>
                binOutPL w (inPLs.row j) (indexes_v.take (i + 1))
                  (indexes_v.drop (i + 1)))).row j
                = binOutPL w (inPLs.row j) (indexes_v.take (i + 1))
                  (indexes_v.drop (i + 1)) := by
              rw [mkConcat_row _ (by rw [hrowlen]; exact hj),
                getD_range_map _ hj]
            have hchar := binOutPL_char w (inPLs.row j) (indexes_v.take (i + 1))
              (indexes_v.drop (i + 1)) hrb_ne hab_ne (fun idx => row_getD_le hbound j idx)
            rw [hrow]
            refine ⟨hchar.1, hchar.2.1, hchar.2.2.1, hchar.2.2.2, ?_⟩
            have hgt := binGT_char _ hchar.1
            obtain ⟨k, hk1, hk2⟩ := hgt
            refine ⟨k, hk1, ?_⟩
            have hjg : j < (g0.mapIdx fun j s =>
                if j < nSamples then binGT (binOutPL w (inPLs.row j)
                  (indexes_v.take (i + 1)) (indexes_v.drop (i + 1))) else s).length := by
              rw [List.length_mapIdx, hg0len]
              exact hj
            rw [List.getD_eq_getElem _ _ hjg, List.getElem_mapIdx, if_pos hj]
            exact hk2
          intro e he
          rw [← hrecs] at he
          rcases List.mem_cons.mp he with rfl | he2
          · exact hprop
          · refine ih _ _ _ (fun j hj => hcuts j (List.mem_cons_of_mem _ hj)) ?_ ?_ heq e he2
            · simpa [setFieldValue_length] using hinfo
            · refine ⟨k0, _, k1, _, rfl, by rw [List.length_mapIdx]; exact hg0len, ?_⟩
              have hlen3 : ∀ r ∈ ((List.range nSamples).map fun j =>
                  binOutPL w (inPLs.row j) (indexes_v.take (i + 1))
                    (indexes_v.drop (i + 1))), r.length = 3 := by
                intro r hr
                obtain ⟨j, _, rfl⟩ := List.mem_map.mp hr
                rfl
              exact establishOk_intCol w nSamples _
                (by rw [mkConcat_delim_const hlen3, hrowlen])
                (by rw [mkConcat_data_const hlen3, hrowlen])

/-- Projection out of a successful stage result, used to name the concrete
output of a concrete run. -/
def exOk : Except DError (Record × List Record) → Record × List Record
  | .ok p => p
  | .error _ => (⟨"", 0, "", "", [], 0, [], [], []⟩, [])

/-- The output record `new_rec` as `main` of `binalleles.cpp` constructs it
for one sample: two placeholder ALTs, the four bin INFO fields, an empty GT
string per sample and an empty int16 PL column. -/
def binStKeep : Record :=
  { chrom := "", pos := 0, id := ".", ref := "", alt := [".", "."], qual := 0, filters := [],
    info := [("REFBIN_MAXLEN", .intScalar 0), ("ALTBIN_MINLEN", .intScalar 0),
      ("REFBIN_INDEXES", .intVec .i16 []), ("ALTBIN_INDEXES", .intVec .i16 [])],
    genotypes := [("GT", .strVec [""]), ("PL", .intCol .i16 ⟨[], [0]⟩)] }

/-- A single-ALT record with a phased GT and a one-entry PL row: the binning
stage passes it through untouched. -/
def recPassC5 : Record :=
  { chrom := "1", pos := 100, id := "rs1", ref := "A", alt := ["T"], qual := 0, filters := [],
    info := [], genotypes := [("GT", .strVec ["0|1"]), ("PL", .intCol .i32 ⟨[7], [0, 1]⟩)] }

/-- A three-ALT record with a full diploid PL column, processed by the cut
loop of the binning stage. -/
def recBinW : Record :=
  { chrom := "1", pos := 200, id := "rs7", ref := "A", alt := ["T", "G", "ATG"], qual := 0,
    filters := [], info := [],
    genotypes := [("GT", .strVec ["0/1"]),
      ("PL", .intCol .i32 ⟨[0, 1, 2, 3, 4, 5, 6, 7, 8, 9], [0, 10]⟩)] }

/-- Claim C5 is stated for every record emitted by the length-binning stage,
but the stage passes records with fewer than two ALT alleles through
unchanged: this emitted record keeps its one-entry PL row and its phased GT
`0|1`, violating both the three-entry shape and the GT range the claim
asserts. -/
theorem claim_C5_counterexample :
    bin_by_length_fn ⟨true, false⟩ 1 binStKeep recPassC5 = .ok (binStKeep, [recPassC5]) ∧
    (recPassC5.genotypes.getD 1 ("", .strVec [])).2 = .intCol .i32 ⟨[7], [0, 1]⟩ ∧
    ((⟨[7], [0, 1]⟩ : ConcatCol Int).row 0).length = 1 ∧
    (recPassC5.genotypes.getD 0 ("", .strVec [])).2 = .strVec ["0|1"] ∧
    ¬ "0|1" ∈ (["0/0", "0/1", "1/1"] : List String) :=
  ⟨rfl, rfl, rfl, rfl, by decide⟩

/-- Claim C5 (amended to records produced by the cut loop): when binning is
active, the record has at least two ALT alleles and carries an integer PL
column whose values fit the width's maximum, every record emitted by
`bin_by_length_fn` has three-entry PL rows holding the REFBIN-pair,
cross-bin and ALTBIN-pair minima of the input PL row, and a GT among
`0/0`, `0/1`, `1/1` chosen by the first minimum of the row. -/
theorem claim_C5_binned_minima (opts : BinOpts) (nSamples : Nat)
    (st record st' : Record) (recs : List Record)
    (plKey k0 k1 : String) (w : IntWidth) (inPLs : ConcatCol Int)
    (g0 : List String) (pv : FmtValue)
    (hbin : opts.bin_by_length = true)
    (halts : 2 ≤ record.alt.length)
    (hfind : record.genotypes.find? (fun e => e.1 == "PL") = some (plKey, .intCol w inPLs))
    (hbound : ∀ x ∈ inPLs.data, x ≤ intMax w)
    (hinfo : 4 ≤ st.info.length)
    (hgen : st.genotypes = [(k0, FmtValue.strVec g0), (k1, pv)])
    (hg0 : g0.length = nSamples)
    (hest : establishOk w nSamples pv)
    (hrun : bin_by_length_fn opts nSamples st record = .ok (st', recs)) :
    ∀ e ∈ recs, BinRecProp w nSamples inPLs e := by
  rw [bin_by_length_fn] at hrun
  have hc1 : ¬(record.alt.length ≤ 1 ∨ opts.bin_by_length = false) := by
    rw [hbin]
    simp only [not_or]
    exact ⟨by omega, by simp⟩
  rw [if_neg hc1] at hrun
  have hmem := List.mem_of_find?_eq_some hfind
  have hp := List.find?_some hfind
  have hany : (record.genotypes.any fun e => e.1 == "PL") = true := by
    rw [List.any_eq_true]
    exact ⟨_, hmem, hp⟩
  have hc2 : ¬((record.genotypes.any fun e => e.1 == "PL") = false) := by
    rw [hany]
    simp
  rw [if_neg hc2] at hrun
  rw [hfind] at hrun
  dsimp only at hrun
  have hidxlen : (List.map Prod.snd (List.insertionSort lexLe
      ((record.ref.length, 0) :: record.alt.enum.map fun p => (p.2.length, p.1 + 1)))).length
      = record.alt.length + 1 := by
    rw [List.length_map, List.length_insertionSort]
    simp
  exact binLoop_emits opts nSamples record.id record.alt.length _ _ w inPLs hidxlen hbound
    (List.range record.alt.length) { st with chrom := record.chrom, pos := record.pos }
    st' recs (fun i hi => List.mem_range.mp hi) hinfo
    ⟨k0, g0, k1, pv, hgen, hg0, hest⟩ hrun

/-- Concrete instantiation of the amended C5 theorem on a three-ALT record
processed end to end by the binning stage. -/
theorem claim_C5_witness :
    BinRecProp .i32 1 ⟨[0, 1, 2, 3, 4, 5, 6, 7, 8, 9], [0, 10]⟩
      ((exOk (bin_by_length_fn ⟨true, false⟩ 1 binStKeep recBinW)).2.getD 0 binStKeep) :=
  claim_C5_binned_minima ⟨true, false⟩ 1 binStKeep recBinW
    (exOk (bin_by_length_fn ⟨true, false⟩ 1 binStKeep recBinW)).1
    (exOk (bin_by_length_fn ⟨true, false⟩ 1 binStKeep recBinW)).2
    "PL" "GT" "PL" .i32 ⟨[0, 1, 2, 3, 4, 5, 6, 7, 8, 9], [0, 10]⟩ [""]
    (.intCol .i16 ⟨[], [0]⟩) rfl (by decide) rfl (by decide) (by decide) rfl rfl
    (by decide) rfl
    ((exOk (bin_by_length_fn ⟨true, false⟩ 1 binStKeep recBinW)).2.getD 0 binStKeep)
    (by decide)

/-- A two-ALT record without any PL FORMAT field. -/
def recNoPL : Record :=
  { chrom := "1", pos := 300, id := "rs9", ref := "A", alt := ["T", "G"], qual := 0,
    filters := [], info := [], genotypes := [("GT", .strVec ["0/1"])] }

/-- Claim C7 asserts a MissingPL error for a ≥2-ALT record without PL under
active binning; the stage instead passes such a record through unchanged
and succeeds. -/
theorem claim_C7_counterexample :
    bin_by_length_fn ⟨true, false⟩ 1 binStKeep recNoPL = .ok (binStKeep, [recNoPL]) ∧
    2 ≤ recNoPL.alt.length ∧
    (recNoPL.genotypes.any fun e => e.1 == "PL") = false :=
  ⟨rfl, by decide, rfl⟩

/-- Claim C7 (amended): when binning is active and a record with at least
two ALT alleles has no PL FORMAT field, `bin_by_length_fn` raises no error
and emits the record unchanged, leaving the state untouched. -/
theorem claim_C7_no_pl_passthrough (opts : BinOpts) (nSamples : Nat) (st record : Record)
    (hbin : opts.bin_by_length = true)
    (halts : 2 ≤ record.alt.length)
    (hnoPL : (record.genotypes.any fun e => e.1 == "PL") = false) :
    bin_by_length_fn opts nSamples st record = .ok (st, [record]) := by
  rw [bin_by_length_fn]
  have hc1 : ¬(record.alt.length ≤ 1 ∨ opts.bin_by_length = false) := by
    rw [hbin]
    simp only [not_or]
    exact ⟨by omega, by simp⟩
  rw [if_neg hc1, if_pos hnoPL]

/-- Concrete instantiation of the amended C7 theorem: a PL-less two-ALT
record passes through the active binning stage unchanged. -/
theorem claim_C7_witness :
    bin_by_length_fn ⟨true, false⟩ 1 binStKeep recNoPL = .ok (binStKeep, [recNoPL]) :=
  claim_C7_no_pl_passthrough ⟨true, false⟩ 1 binStKeep recNoPL rfl (by decide) rfl

/-- A "."-id two-ALT record with a full diploid PL column. -/
def recDotW : Record :=
  { chrom := "1", pos := 400, id := ".", ref := "A", alt := ["T", "GG"], qual := 0,
    filters := [], info := [],
    genotypes := [("GT", .strVec ["0/1"]), ("PL", .intCol .i32 ⟨[0, 1, 2, 3, 4, 5], [0, 6]⟩)] }

/-- Claim C10: the binning stage's reused state record gets its id assigned
only when the current input's id is not "."; hence every record emitted for
a "."-id input that follows a non-"."-id input whose run emitted something
carries the earlier input's suffixed id and in particular is never ".". -/
theorem claim_C10_stale_id (opts : BinOpts) (nSamples : Nat)
    (st st1 st2 r1 r2 : Record) (recs1 recs2 : List Record)
    (p1 p2 : String) (plv1 plv2 : FmtValue)
    (hbin : opts.bin_by_length = true)
    (hdot1 : r1.id ≠ ".") (hdot2 : r2.id = ".")
    (halts1 : 2 ≤ r1.alt.length) (halts2 : 2 ≤ r2.alt.length)
    (hfind1 : r1.genotypes.find? (fun e => e.1 == "PL") = some (p1, plv1))
    (hfind2 : r2.genotypes.find? (fun e => e.1 == "PL") = some (p2, plv2))
    (hrun1 : bin_by_length_fn opts nSamples st r1 = .ok (st1, recs1))
    (hne1 : recs1 ≠ [])
    (hrun2 : bin_by_length_fn opts nSamples st1 r2 = .ok (st2, recs2)) :
    ∀ e ∈ recs2, (∃ i : Nat, e.id = r1.id ++ "_div_" ++ toString i) ∧ e.id ≠ "." := by
  rw [bin_by_length_fn] at hrun1
  have hc1 : ¬(r1.alt.length ≤ 1 ∨ opts.bin_by_length = false) := by
    rw [hbin]
    simp only [not_or]
    exact ⟨by omega, by simp⟩
  rw [if_neg hc1] at hrun1
  have hmem1 := List.mem_of_find?_eq_some hfind1
  have hp1 := List.find?_some hfind1
  have hany1 : (r1.genotypes.any fun e => e.1 == "PL") = true := by
    rw [List.any_eq_true]
    exact ⟨_, hmem1, hp1⟩
  have hc2 : ¬((r1.genotypes.any fun e => e.1 == "PL") = false) := by
    rw [hany1]
    simp
  rw [if_neg hc2] at hrun1
  rw [hfind1] at hrun1
  dsimp only at hrun1
  have h1 := binLoop_id_nondot opts nSamples r1.alt.length _ _ plv1 r1.id hdot1 _ _ _ _ hrun1
  obtain ⟨i0, hst1⟩ := h1.2.2 hne1
  rw [bin_by_length_fn] at hrun2
  have hc3 : ¬(r2.alt.length ≤ 1 ∨ opts.bin_by_length = false) := by
    rw [hbin]
    simp only [not_or]
    exact ⟨by omega, by simp⟩
  rw [if_neg hc3] at hrun2
  have hmem2 := List.mem_of_find?_eq_some hfind2
  have hp2 := List.find?_some hfind2
  have hany2 : (r2.genotypes.any fun e => e.1 == "PL") = true := by
    rw [List.any_eq_true]
    exact ⟨_, hmem2, hp2⟩
  have hc4 : ¬((r2.genotypes.any fun e => e.1 == "PL") = false) := by
    rw [hany2]
    simp
  rw [if_neg hc4] at hrun2
  rw [hfind2] at hrun2
  dsimp only at hrun2
  rw [hdot2] at hrun2
  have h2 := binLoop_id_dot opts nSamples r2.alt.length _ _ plv2 _ _ _ _ hrun2
  intro e he
  have heid : e.id = st1.id := h2.2 e he
  rw [heid, hst1]
  refine ⟨⟨i0, rfl⟩, ?_⟩
  intro hc
  have hlen := congrArg String.length hc
  rw [String.length_append, String.length_append] at hlen
  have h5 : ("_div_" : String).length = 5 := rfl
  have hd : ("." : String).length = 1 := rfl
  omega

/-- Concrete instantiation of C10: the three-ALT `rs7` record is binned
first, then the "."-id record; every record emitted for the latter carries
a stale `rs7_div_i` id. -/
theorem claim_C10_witness :
    (∃ i : Nat, ((exOk (bin_by_length_fn ⟨true, false⟩ 1
        (exOk (bin_by_length_fn ⟨true, false⟩ 1 binStKeep recBinW)).1 recDotW)).2.getD 0
          binStKeep).id = recBinW.id ++ "_div_" ++ toString i) ∧
      ((exOk (bin_by_length_fn ⟨true, false⟩ 1
        (exOk (bin_by_length_fn ⟨true, false⟩ 1 binStKeep recBinW)).1 recDotW)).2.getD 0
          binStKeep).id ≠ "." :=
  claim_C10_stale_id ⟨true, false⟩ 1 binStKeep
    (exOk (bin_by_length_fn ⟨true, false⟩ 1 binStKeep recBinW)).1
    (exOk (bin_by_length_fn ⟨true, false⟩ 1
      (exOk (bin_by_length_fn ⟨true, false⟩ 1 binStKeep recBinW)).1 recDotW)).1
    recBinW recDotW
    (exOk (bin_by_length_fn ⟨true, false⟩ 1 binStKeep recBinW)).2
    (exOk (bin_by_length_fn ⟨true, false⟩ 1
      (exOk (bin_by_length_fn ⟨true, false⟩ 1 binStKeep recBinW)).1 recDotW)).2
    "PL" "PL" (.intCol .i32 ⟨[0, 1, 2, 3, 4, 5, 6, 7, 8, 9], [0, 10]⟩)
    (.intCol .i32 ⟨[0, 1, 2, 3, 4, 5], [0, 6]⟩)
    rfl (by decide) rfl (by decide) (by decide) rfl rfl rfl (by decide) rfl
    ((exOk (bin_by_length_fn ⟨true, false⟩ 1
      (exOk (bin_by_length_fn ⟨true, false⟩ 1 binStKeep recBinW)).1 recDotW)).2.getD 0
        binStKeep)
    (by decide)

end Decovar
